import Mathlib

/-!
Verification of the auto-commit pipeline of `code-agent-auto-commit`:
a shallow embedding, in Lean 4, of the change filter, the commit
orchestrator, the AI message-generation engine and the push validator,
together with theorems settling the specified behavioural claims.

The JavaScript sources are embedded over `List Char` / `String`:
JS regexes are compiled to a small token language with an executable
backtracking matcher, JS string methods (trim, slice, toLowerCase,
trimEnd) become explicit list functions, and every external effect
(HTTP fetch, git subprocesses, process environment) becomes an explicit
input so that all definitions stay executable.
-/

namespace Cac

/-! ## JS character classes

`isLineTerm` is the set of characters a JS regex `.` does NOT match
(ECMA-262 LineTerminator: LF, CR, LS, PS).  `isJsWs` models `\s` and the
whitespace trimmed by `String.prototype.trim`, restricted to its common
members. -/

def isLineTerm (c : Char) : Bool :=
  c = '\n' || c = '\r' || c = Char.ofNat 0x2028 || c = Char.ofNat 0x2029

def isJsWs (c : Char) : Bool :=
  c = ' ' || c = '\t' || c = '\n' || c = '\r' || c = Char.ofNat 0x0b ||
    c = Char.ofNat 0x0c || c = Char.ofNat 0xa0

/-- Lowercase a character the way `String.prototype.toLowerCase` does on
ASCII (non-ASCII letters are left unchanged by this model; the repository
only feeds it ASCII provider names, types and URLs). -/
def jsLower (c : Char) : Char :=
  if 'A' ≤ c ∧ c ≤ 'Z' then Char.ofNat (c.toNat + 32) else c

def lowerStr (s : String) : String := String.mk (s.data.map jsLower)

/-- JS `String.prototype.trim` on the character list. -/
def jsTrimL (cs : List Char) : List Char :=
  ((cs.dropWhile isJsWs).reverse.dropWhile isJsWs).reverse

def jsTrim (s : String) : String := String.mk (jsTrimL s.data)

/-- JS `String.prototype.trimEnd` on the character list. -/
def jsTrimEndL (cs : List Char) : List Char :=
  (cs.reverse.dropWhile isJsWs).reverse

/-! ## Regex token language

The source compiles glob patterns and fixed regexes to JS `RegExp`s.  We
compile the same patterns to a token list and give the tokens their
ECMA-262 semantics with an executable backtracking matcher:
`lit c` a literal character, `star` is `[^/]*`, `dstar` is `.*`
(a JS `.` never matches a line terminator), `qmark` is `.`, and
`wsPlus` is `\s+`. -/

inductive GTok where
  | lit (c : Char)
  | star
  | dstar
  | qmark
  | wsPlus
deriving DecidableEq, Repr

/-- Suffixes of `cs` reachable by consuming zero or more characters
satisfying `p` from the front (the candidate remainders of a starred
character class). -/
def starSuffixes (p : Char → Bool) : List Char → List (List Char)
  | [] => [[]]
  | x :: xs => (x :: xs) :: (if p x then starSuffixes p xs else [])

/-- Suffixes of `cs` reachable by consuming one or more `\s` characters
from the front (the candidate remainders of `\s+`). -/
def wsSuffixes : List Char → List (List Char)
  | [] => []
  | x :: xs => if isJsWs x then xs :: wsSuffixes xs else []

/-- Full-string match of a token list against a character list, with JS
semantics: `qmark` (`.`) and `dstar` (`.*`) refuse line terminators,
`star` (`[^/]*`) refuses `/` but accepts line terminators (a negated
class matches them). -/
def rmatch : List GTok → List Char → Bool
  | [], cs => cs.isEmpty
  | .lit c :: ts, cs =>
    match cs with
    | [] => false
    | x :: xs => c = x && rmatch ts xs
  | .qmark :: ts, cs =>
    match cs with
    | [] => false
    | x :: xs => !isLineTerm x && rmatch ts xs
  | .star :: ts, cs => (starSuffixes (fun c => !(c = '/')) cs).any (fun s => rmatch ts s)
  | .dstar :: ts, cs => (starSuffixes (fun c => !isLineTerm c) cs).any (fun s => rmatch ts s)
  | .wsPlus :: ts, cs => (wsSuffixes cs).any (fun s => rmatch ts s)

/-- Match with the glob semantics in the words of the specification:
`?` matches exactly one character (any character) and `**` matches
across separators (any run of characters); `*` still refuses `/`.
This is the spec-side matcher compared against `rmatch`, which embeds
the regex the code actually builds. -/
def smatch : List GTok → List Char → Bool
  | [], cs => cs.isEmpty
  | .lit c :: ts, cs =>
    match cs with
    | [] => false
    | x :: xs => c = x && smatch ts xs
  | .qmark :: ts, cs =>
    match cs with
    | [] => false
    | _ :: xs => smatch ts xs
  | .star :: ts, cs => (starSuffixes (fun c => !(c = '/')) cs).any (fun s => smatch ts s)
  | .dstar :: ts, cs => (starSuffixes (fun _ => true) cs).any (fun s => smatch ts s)
  | .wsPlus :: ts, cs => (wsSuffixes cs).any (fun s => smatch ts s)

/-- `patternToRegex` from `core/filter`: scan the glob pattern, turning
`**` into `.*`, `*` into `[^/]*`, `?` into `.`, and everything else into
an (escaped, hence literal) character.  `escapeRegex` in the source only
inserts backslashes so that the character is literal in the regex; in
the token language that is exactly `GTok.lit`. -/
def patternTokens : List Char → List GTok
  | [] => []
  | '*' :: '*' :: rest => .dstar :: patternTokens rest
  | '*' :: rest => .star :: patternTokens rest
  | '?' :: rest => .qmark :: patternTokens rest
  | c :: rest => .lit c :: patternTokens rest

/-- `matchesAnyPattern` from `core/filter`. -/
def matchesAnyPattern (value : String) (patterns : List String) : Bool :=
  if patterns.length = 0 then false
  else patterns.any (fun pat => rmatch (patternTokens pat.data) value.data)

/-- `shouldIncludePath` from `core/filter`. -/
def shouldIncludePath (value : String) (inc exc : List String) : Bool :=
  if inc.length > 0 && !matchesAnyPattern value inc then false
  else if exc.length > 0 && matchesAnyPattern value exc then false
  else true

/-- A single glob pattern applied with the specification wording
(`?` = exactly one character, `**` = across separators). -/
def specGlobMatch (pat value : String) : Bool :=
  smatch (patternTokens pat.data) value.data

/-- The keep condition exactly as the specification phrases it:
(include empty OR some include pattern matches) AND NOT (exclude
non-empty AND some exclude pattern matches). -/
def specKeep (value : String) (inc exc : List String) : Prop :=
  (inc = [] ∨ ∃ pat ∈ inc, specGlobMatch pat value = true) ∧
  ¬(exc ≠ [] ∧ ∃ pat ∈ exc, specGlobMatch pat value = true)

instance (value : String) (inc exc : List String) :
    Decidable (specKeep value inc exc) := by
  unfold specKeep; infer_instance

theorem anyCongrL {α : Type} {l : List α} {f g : α → Bool} (h : ∀ a ∈ l, f a = g a) :
    l.any f = l.any g := by
  induction l with
  | nil => rfl
  | cons x xs ih =>
    simp only [List.any_cons]
    rw [h x (List.mem_cons_self _ _), ih (fun a ha => h a (List.mem_cons_of_mem _ ha))]

theorem starSuffixes_sublist (p : Char → Bool) (cs : List Char) :
    ∀ s ∈ starSuffixes p cs, s.Sublist cs := by
  induction cs with
  | nil => intro s hs; simp [starSuffixes] at hs; simp [hs]
  | cons x xs ih =>
    intro s hs
    simp only [starSuffixes] at hs
    rcases List.mem_cons.mp hs with h | h
    · simp [h]
    · by_cases hp : p x
      · simp [hp] at h
        exact List.Sublist.cons x (ih s h)
      · simp [hp] at h

theorem wsSuffixes_sublist (cs : List Char) : ∀ s ∈ wsSuffixes cs, s.Sublist cs := by
  induction cs with
  | nil => intro s hs; simp [wsSuffixes] at hs
  | cons x xs ih =>
    intro s hs
    simp only [wsSuffixes] at hs
    by_cases hw : isJsWs x
    · simp [hw] at hs
      rcases hs with h | h
      · simp [h]
      · exact List.Sublist.cons x (ih s h)
    · simp [hw] at hs

theorem starSuffixes_congr (cs : List Char) (p q : Char → Bool)
    (h : ∀ c ∈ cs, p c = q c) : starSuffixes p cs = starSuffixes q cs := by
  induction cs with
  | nil => rfl
  | cons x xs ih =>
    simp only [starSuffixes]
    rw [h x (List.mem_cons_self _ _), ih (fun c hc => h c (List.mem_cons_of_mem _ hc))]

/-- On inputs free of line terminators, the compiled-regex matcher and
the specification-worded matcher agree. -/
theorem rmatch_eq_smatch (ts : List GTok) (cs : List Char)
    (h : ∀ c ∈ cs, isLineTerm c = false) : rmatch ts cs = smatch ts cs := by
  induction ts generalizing cs with
  | nil => rfl
  | cons t ts ih =>
    cases t with
    | lit c =>
      cases cs with
      | nil => rfl
      | cons x xs =>
        simp only [rmatch, smatch]
        rw [ih xs (fun c hc => h c (List.mem_cons_of_mem _ hc))]
    | qmark =>
      cases cs with
      | nil => rfl
      | cons x xs =>
        simp only [rmatch, smatch, h x (List.mem_cons_self _ _)]
        rw [ih xs (fun c hc => h c (List.mem_cons_of_mem _ hc))]
        simp
    | star =>
      simp only [rmatch, smatch]
      refine anyCongrL (fun s hs => ?_)
      exact ih s (fun c hc => h c ((starSuffixes_sublist _ cs s hs).mem hc))
    | dstar =>
      simp only [rmatch, smatch]
      rw [starSuffixes_congr cs _ (fun _ => true) (fun c hc => by simp [h c hc])]
      refine anyCongrL (fun s hs => ?_)
      exact ih s (fun c hc => h c ((starSuffixes_sublist _ cs s hs).mem hc))
    | wsPlus =>
      simp only [rmatch, smatch]
      refine anyCongrL (fun s hs => ?_)
      exact ih s (fun c hc => h c ((wsSuffixes_sublist cs s hs).mem hc))

theorem matchesAnyPattern_iff (value : String) (ps : List String) :
    matchesAnyPattern value ps = true ↔
      ∃ pat ∈ ps, rmatch (patternTokens pat.data) value.data = true := by
  unfold matchesAnyPattern
  by_cases hp : ps.length = 0
  · rw [List.length_eq_zero] at hp
    subst hp; simp
  · simp [hp, List.any_eq_true]

/-- C1 (counterexample): the claimed glob semantics (`?` matches exactly
one character) disagree with the code on a path containing a newline:
the compiled regex `^a.$` does not match `"a\n"` (a JS `.` never matches
a line terminator), so the path survives `exclude = ["a?"]` although the
claim says it is excluded. -/
theorem shouldIncludePath_newline_counterexample :
    shouldIncludePath "a\n" [] ["a?"] = true ∧ ¬ specKeep "a\n" [] ["a?"] := by
  constructor
  · decide
  · decide

/-- C1 (amended): for every path free of line-terminator characters, the
filter keeps the path iff (include is empty OR the path matches at least
one include pattern) AND NOT (exclude is non-empty AND the path matches
at least one exclude pattern), with the glob semantics of the
specification (`*` any run without `/`, `**` across separators, `?`
exactly one character, all else literal). -/
theorem shouldIncludePath_iff_specKeep (value : String) (inc exc : List String)
    (h : ∀ c ∈ value.data, isLineTerm c = false) :
    shouldIncludePath value inc exc = true ↔ specKeep value inc exc := by
  have hrw : ∀ ps : List String, matchesAnyPattern value ps = true ↔
      ∃ pat ∈ ps, specGlobMatch pat value = true := by
    intro ps
    rw [matchesAnyPattern_iff]
    unfold specGlobMatch
    constructor
    · rintro ⟨pat, hp, hm⟩
      exact ⟨pat, hp, by rw [← rmatch_eq_smatch _ _ h]; exact hm⟩
    · rintro ⟨pat, hp, hm⟩
      exact ⟨pat, hp, by rw [rmatch_eq_smatch _ _ h]; exact hm⟩
  unfold shouldIncludePath specKeep
  by_cases hinc : inc.length > 0
  · have hne : inc ≠ [] := by
      intro hcontra; rw [hcontra] at hinc; simp at hinc
    by_cases hm : matchesAnyPattern value inc = true
    · simp only [hinc, hm]
      by_cases hexc : exc.length > 0
      · have hene : exc ≠ [] := by
          intro hcontra; rw [hcontra] at hexc; simp at hexc
        by_cases hme : matchesAnyPattern value exc = true
        · simp [hm, hme, hene, ← hrw]
        · simp only [Bool.not_eq_true] at hme
          simp [hm, hme, hene, ← hrw, hexc]
      · have heq : exc = [] := by
          cases exc with
          | nil => rfl
          | cons a l => simp at hexc
        subst heq
        simp [hm, ← hrw, hne]
    · simp only [Bool.not_eq_true] at hm
      simp [hinc, hm, hne, ← hrw]
  · have heq : inc = [] := by
      cases inc with
      | nil => rfl
      | cons a l => simp at hinc
    subst heq
    simp only [List.length_nil, gt_iff_lt, lt_self_iff_false, if_false]
    by_cases hexc : exc.length > 0
    · have hene : exc ≠ [] := by
        intro hcontra; rw [hcontra] at hexc; simp at hexc
      by_cases hme : matchesAnyPattern value exc = true
      · simp [hme, hene, ← hrw]
      · simp only [Bool.not_eq_true] at hme
        simp [hme, hene, ← hrw, hexc]
    · have heq : exc = [] := by
        cases exc with
        | nil => rfl
        | cons a l => simp at hexc
      subst heq
      simp [← hrw]

/-- C1 (witness): the amended equivalence applied to the round-trip
example from the specification: `"src/a.ts"` against
`exclude = [".env", ".env.*"]`. -/
theorem shouldIncludePath_iff_specKeep_witness :
    (∀ c ∈ "src/a.ts".data, isLineTerm c = false) ∧
      (shouldIncludePath "src/a.ts" [] [".env", ".env.*"] = true ↔
        specKeep "src/a.ts" [] [".env", ".env.*"]) :=
  ⟨by decide, shouldIncludePath_iff_specKeep "src/a.ts" [] [".env", ".env.*"] (by decide)⟩

/-! ## Changed files, deduplication and ordering

`uniqueSorted` in `core/run` deduplicates the changed files by path
(first occurrence wins, via a `Set` of seen paths) and then sorts with
`(a, b) => a.path.localeCompare(b.path)`.  JS `Array.prototype.sort` is
a stable sort, so it is modelled by insertion sort (stable) over a model
of the comparator.

`localeCompare` without arguments collates with the default-locale ICU
tailoring, not by code points.  `collKey` models that collation for the
ASCII strings this pipeline handles: a primary pass that compares
characters case-insensitively, then (separated by a `0` sentinel, since
every primary weight is positive) a case pass on which lowercase
precedes uppercase.  Under this model, as under ICU,
`"a.txt" < "B.txt"` even though `"B.txt"` precedes `"a.txt"` by code points. -/

structure ChangedFile where
  path : String
  originalPath : Option String := none
  indexStatus : Char := 'M'
  worktreeStatus : Char := ' '
deriving DecidableEq, Repr

def primaryW (c : Char) : Nat := (jsLower c).toNat

def caseW (c : Char) : Nat := if 'A' ≤ c ∧ c ≤ 'Z' then 1 else 0

def collKey (s : String) : List Nat := s.data.map primaryW ++ 0 :: s.data.map caseW

/-- Non-strict lexicographic comparison of weight lists. -/
def natListLe : List Nat → List Nat → Bool
  | [], _ => true
  | _ :: _, [] => false
  | a :: as, b :: bs => if a < b then true else if b < a then false else natListLe as bs

/-- The comparator order of `uniqueSorted`: `a.path.localeCompare(b.path) <= 0`
under the collation model. -/
def fileLe (a b : ChangedFile) : Prop := natListLe (collKey a.path) (collKey b.path) = true

instance : DecidableRel fileLe := fun a b => by unfold fileLe; infer_instance

/-- Plain code-point lexicographic order on strings — the standard
reading of "sorted ascending lexicographically" in the specification. -/
def lexLe : List Char → List Char → Bool
  | [], _ => true
  | _ :: _, [] => false
  | a :: as, b :: bs => if a < b then true else if b < a then false else lexLe as bs

theorem natListLe_total : ∀ a b : List Nat, natListLe a b = true ∨ natListLe b a = true := by
  intro a
  induction a with
  | nil => intro b; left; rfl
  | cons x xs ih =>
    intro b
    cases b with
    | nil => right; rfl
    | cons y ys =>
      rcases Nat.lt_trichotomy x y with h | h | h
      · left; simp [natListLe, h]
      · subst h
        rcases ih ys with hl | hl
        · left; simp [natListLe, hl]
        · right; simp [natListLe, hl]
      · right; simp [natListLe, h]

theorem natListLe_trans : ∀ a b c : List Nat,
    natListLe a b = true → natListLe b c = true → natListLe a c = true := by
  intro a
  induction a with
  | nil => intro b c _ _; rfl
  | cons x xs ih =>
    intro b c hab hbc
    cases b with
    | nil => simp [natListLe] at hab
    | cons y ys =>
      cases c with
      | nil => simp [natListLe] at hbc
      | cons z zs =>
        simp only [natListLe] at hab hbc ⊢
        by_cases hxy : x < y
        · by_cases hyz : y < z
          · simp [Nat.lt_trans hxy hyz]
          · by_cases hzy : z < y
            · simp [natListLe, hzy] at hbc
              exact absurd hbc hyz
            · have : y = z := Nat.le_antisymm (Nat.le_of_not_lt hzy) (Nat.le_of_not_lt hyz)
              subst this
              simp [hxy]
        · by_cases hyx : y < x
          · simp [hxy, hyx, natListLe] at hab
          · have hxyeq : x = y := Nat.le_antisymm (Nat.le_of_not_lt hyx) (Nat.le_of_not_lt hxy)
            subst hxyeq
            simp only [Nat.lt_irrefl, if_false] at hab
            by_cases hyz : x < z
            · simp [hyz]
            · by_cases hzy : z < x
              · simp [natListLe, hzy] at hbc
                exact absurd hbc hyz
              · have : x = z := Nat.le_antisymm (Nat.le_of_not_lt hzy) (Nat.le_of_not_lt hyz)
                subst this
                simp only [Nat.lt_irrefl, if_false] at hbc ⊢
                exact ih ys zs hab hbc

instance : IsTotal ChangedFile fileLe := ⟨fun _ _ => natListLe_total _ _⟩

instance : IsTrans ChangedFile fileLe := ⟨fun _ _ _ => natListLe_trans _ _ _⟩

/-- The dedup loop of `uniqueSorted`: walk the list keeping the first
occurrence of each path, with `seen` the set of paths already emitted. -/
def dedupFirst : List ChangedFile → List String → List ChangedFile
  | [], _ => []
  | f :: rest, seen =>
    if f.path ∈ seen then dedupFirst rest seen
    else f :: dedupFirst rest (f.path :: seen)

/-- `uniqueSorted` from `core/run`: dedup by path (first wins), then the
stable comparator sort. -/
def uniqueSorted (files : List ChangedFile) : List ChangedFile :=
  List.insertionSort fileLe (dedupFirst files [])

theorem dedupFirst_not_seen : ∀ (l : List ChangedFile) (seen : List String),
    ∀ f ∈ dedupFirst l seen, f.path ∉ seen := by
  intro l
  induction l with
  | nil => intro seen f hf; simp [dedupFirst] at hf
  | cons g rest ih =>
    intro seen f hf
    simp only [dedupFirst] at hf
    by_cases hg : g.path ∈ seen
    · rw [if_pos hg] at hf
      exact ih seen f hf
    · rw [if_neg hg] at hf
      rcases List.mem_cons.mp hf with h | h
      · subst h; exact hg
      · have := ih _ f h
        intro hc
        exact this (List.mem_cons_of_mem _ hc)

theorem dedupFirst_mem_path : ∀ (l : List ChangedFile) (seen : List String) (p : String),
    p ∈ (dedupFirst l seen).map ChangedFile.path ↔
      (p ∈ l.map ChangedFile.path ∧ p ∉ seen) := by
  intro l
  induction l with
  | nil => intro seen p; simp [dedupFirst]
  | cons g rest ih =>
    intro seen p
    simp only [dedupFirst, List.map_cons, List.mem_cons]
    by_cases hg : g.path ∈ seen
    · rw [if_pos hg, ih]
      constructor
      · rintro ⟨hm, hs⟩; exact ⟨Or.inr hm, hs⟩
      · rintro ⟨hm | hm, hs⟩
        · subst hm; exact absurd hg hs
        · exact ⟨hm, hs⟩
    · rw [if_neg hg]
      simp only [List.map_cons, List.mem_cons, ih]
      constructor
      · rintro (h | ⟨hm, hs⟩)
        · subst h; exact ⟨Or.inl rfl, hg⟩
        · exact ⟨Or.inr hm, fun hc => hs (Or.inr hc)⟩
      · rintro ⟨hm | hm, hs⟩
        · exact Or.inl hm
        · by_cases hpg : p = g.path
          · exact Or.inl hpg
          · exact Or.inr ⟨hm, by simp [hpg, hs]⟩

theorem dedupFirst_nodup : ∀ (l : List ChangedFile) (seen : List String),
    ((dedupFirst l seen).map ChangedFile.path).Nodup := by
  intro l
  induction l with
  | nil => intro seen; simp [dedupFirst]
  | cons g rest ih =>
    intro seen
    simp only [dedupFirst]
    by_cases hg : g.path ∈ seen
    · rw [if_pos hg]; exact ih seen
    · rw [if_neg hg]
      simp only [List.map_cons, List.nodup_cons]
      refine ⟨fun hc => ?_, ih _⟩
      have := (dedupFirst_mem_path rest (g.path :: seen) g.path).mp hc
      exact this.2 (List.mem_cons_self _ _)

theorem dedupFirst_find : ∀ (l : List ChangedFile) (seen : List String),
    ∀ f ∈ dedupFirst l seen, l.find? (fun g => g.path == f.path) = some f := by
  intro l
  induction l with
  | nil => intro seen f hf; simp [dedupFirst] at hf
  | cons g rest ih =>
    intro seen f hf
    simp only [dedupFirst] at hf
    by_cases hg : g.path ∈ seen
    · rw [if_pos hg] at hf
      have hne : (g.path == f.path) = false := by
        rw [beq_eq_false_iff_ne]
        intro hb
        exact (dedupFirst_not_seen rest seen f hf) (hb ▸ hg)
      simp only [List.find?_cons, hne]
      exact ih seen f hf
    · rw [if_neg hg] at hf
      rcases List.mem_cons.mp hf with h | h
      · subst h
        simp only [List.find?_cons, beq_self_eq_true]
      · have hns := dedupFirst_not_seen rest (g.path :: seen) f h
        have hne : (g.path == f.path) = false := by
          rw [beq_eq_false_iff_ne]
          intro hb
          exact hns (hb ▸ List.mem_cons_self _ _)
        simp only [List.find?_cons, hne]
        exact ih _ f h

/-- C2 (counterexample): on input paths `["B.txt", "a.txt"]` the
comparator sort of `uniqueSorted` (ICU default collation, modelled by
`fileLe`) yields `["a.txt", "B.txt"]`, which is NOT ascending in
code-point lexicographic order, because `"a.txt" > "B.txt"` by code
points (0x61 > 0x42). -/
theorem uniqueSorted_not_lex_counterexample :
    (uniqueSorted [⟨"B.txt", none, 'M', ' '⟩, ⟨"a.txt", none, 'M', ' '⟩]).map
        ChangedFile.path = ["a.txt", "B.txt"] ∧
      lexLe "a.txt".data "B.txt".data = false := by
  constructor
  · decide
  · decide

/-- C2 (amended): the list the orchestrator commits from is
deduplicated by path with the first occurrence of each path winning, and
is sorted ascending by the comparator order of
`path.localeCompare` (default-locale ICU collation, modelled by
`fileLe`) — an order that is case-insensitive first and therefore not
code-point lexicographic. -/
theorem uniqueSorted_spec (files : List ChangedFile) :
    ((uniqueSorted files).map ChangedFile.path).Nodup ∧
      (∀ p, p ∈ (uniqueSorted files).map ChangedFile.path ↔
        p ∈ files.map ChangedFile.path) ∧
      (∀ f ∈ uniqueSorted files,
        files.find? (fun g => g.path == f.path) = some f) ∧
      (uniqueSorted files).Pairwise fileLe := by
  have hperm : (uniqueSorted files).Perm (dedupFirst files []) :=
    List.perm_insertionSort fileLe (dedupFirst files [])
  have hpermmap : ((uniqueSorted files).map ChangedFile.path).Perm
      ((dedupFirst files []).map ChangedFile.path) := hperm.map _
  refine ⟨?_, ?_, ?_, ?_⟩
  · exact hpermmap.nodup_iff.mpr (dedupFirst_nodup files [])
  · intro p
    rw [hpermmap.mem_iff, dedupFirst_mem_path]
    simp
  · intro f hf
    exact dedupFirst_find files [] f (hperm.mem_iff.mp hf)
  · exact List.sorted_insertionSort fileLe (dedupFirst files [])


/-- Sample changed-file list with a duplicate path and mixed input
order. -/
def sampleFiles : List ChangedFile :=
  [⟨"b.txt", none, 'M', ' '⟩, ⟨"a.txt", none, 'M', ' '⟩, ⟨"a.txt", none, 'A', ' '⟩]

/-- C2 (witness): the dedup-and-sort law applied to `sampleFiles`,
discharging the membership hypothesis at the first occurrence of
`a.txt`. -/
theorem uniqueSorted_spec_witness :
    ((uniqueSorted sampleFiles).map ChangedFile.path).Nodup ∧
      ("a.txt" ∈ (uniqueSorted sampleFiles).map ChangedFile.path ↔
        "a.txt" ∈ sampleFiles.map ChangedFile.path) ∧
      sampleFiles.find?
        (fun g => g.path == (⟨"a.txt", none, 'M', ' '⟩ : ChangedFile).path) =
        some ⟨"a.txt", none, 'M', ' '⟩ ∧
      (uniqueSorted sampleFiles).Pairwise fileLe :=
  ⟨(uniqueSorted_spec sampleFiles).1,
    (uniqueSorted_spec sampleFiles).2.1 "a.txt",
    (uniqueSorted_spec sampleFiles).2.2.1 ⟨"a.txt", none, 'M', ' '⟩ (by decide),
    (uniqueSorted_spec sampleFiles).2.2.2⟩

/-! ## Message normalization and typed formatting

`formatTypedMessage` in `core/ai` parses a raw model line with the regex
`^([a-zA-Z-]+)(\\([^)]*\\))?\\s*:\\s*(.+)$`.  For this regex the usual
backtracking search is deterministic (the character classes of adjacent
parts are disjoint), except that the final `\\s*` may give back one
whitespace character to let `(.+)$` match; `parseSubject` reproduces
exactly that.  A `.` never matches a line terminator, so a line whose
tail contains one falls through to the `chore:` branch. -/

def isTypeChar (c : Char) : Bool :=
  ('a' ≤ c ∧ c ≤ 'z') || ('A' ≤ c ∧ c ≤ 'Z') || c = '-'

def quoteChar (c : Char) : Bool :=
  c = Char.ofNat 39 || c = '"' || c = Char.ofNat 96

/-- JS `replace(/^[quotes]+|[quotes]+$/g, "")`: remove the leading run
and the trailing run of quote characters. -/
def stripQuotesL (cs : List Char) : List Char :=
  ((cs.dropWhile quoteChar).reverse.dropWhile quoteChar).reverse

/-- JS `replace(/^[-:]+/, "")`. -/
def stripDashColons (cs : List Char) : List Char :=
  cs.dropWhile (fun c => c = '-' || c = ':')

/-- Split `cs` at the first `)` — the scope group `\\([^)]*\\)` closes at
the first closing parenthesis or fails. -/
def splitAtCloseParen (cs : List Char) : Option (List Char × List Char) :=
  match cs.dropWhile (fun c => !(c = ')')) with
  | ')' :: rest => some (cs.takeWhile (fun c => !(c = ')')), rest)
  | _ => none

/-- The `\\s*(.+)$` tail after the colon: greedy whitespace skip, then a
non-empty run of non-line-terminator characters up to the end; if the
whitespace swallowed everything, backtrack one character. -/
def parseSubject (r4 : List Char) : Option (List Char) :=
  let d := r4.dropWhile isJsWs
  if d.length > 0 then
    if d.any isLineTerm then none else some d
  else
    match r4.getLast? with
    | some c => if isLineTerm c then none else some [c]
    | none => none

def parseAfterScope (p1 scope r2 : List Char) :
    Option (List Char × List Char × List Char) :=
  match r2.dropWhile isJsWs with
  | ':' :: r4 =>
    match parseSubject r4 with
    | some subj => some (p1, scope, subj)
    | none => none
  | _ => none

/-- Deterministic parse of `^([a-zA-Z-]+)(\\([^)]*\\))?\\s*:\\s*(.+)$`,
returning the type capture, the scope capture (with its parentheses, or
empty) and the subject capture. -/
def parseConventional (raw : List Char) : Option (List Char × List Char × List Char) :=
  let p1 := raw.takeWhile isTypeChar
  let r1 := raw.dropWhile isTypeChar
  if p1.length = 0 then none
  else
    match r1 with
    | '(' :: rest =>
      match splitAtCloseParen rest with
      | none => none
      | some (inside, r2) => parseAfterScope p1 ('(' :: inside ++ [')']) r2
    | _ => parseAfterScope p1 [] r1

def VALID_TYPES : List String :=
  ["feat", "fix", "refactor", "docs", "style", "test",
   "chore", "perf", "ci", "build", "revert"]

def TYPE_ALIASES : List (String × String) :=
  [("feature", "feat"), ("bugfix", "fix"), ("hotfix", "fix"),
   ("refactoring", "refactor"), ("refector", "refactor")]

/-- `normalizeCommitType` from `core/ai`. -/
def normalizeCommitType (raw : String) : Option String :=
  let value := lowerStr (jsTrim raw)
  if VALID_TYPES.contains value then some value else TYPE_ALIASES.lookup value

/-- The prefix (`type(scope): ` or `chore: `) and cleaned subject that
`formatTypedMessage` assembles, shared between its two branches. -/
def messageParts (raw : String) : String × String :=
  match parseConventional raw.data with
  | some (t, scope, subj0) =>
    let ty := (normalizeCommitType (String.mk t)).getD "chore"
    let subject := jsTrimL (stripDashColons (stripQuotesL subj0))
    (ty ++ String.mk scope ++ ": ", String.mk subject)
  | none =>
    ("chore: ", String.mk (jsTrimL (stripQuotesL raw.data)))

/-- `formatTypedMessage` from `core/ai`: assemble `prefix ++ subject`;
if it fits, return it; if the space left after the prefix (`available =
maxLength - prefix.length`) is at most 1, hard-truncate the trimmed
prefix to `maxLength`; otherwise truncate the subject to `available - 1`
characters, trim its end and append an ellipsis. -/
def formatTypedMessage (raw : String) (maxLength : Nat) : String :=
  let parts := messageParts raw
  if parts.2.data.length = 0 then ""
  else
    let full := parts.1 ++ parts.2
    if full.data.length ≤ maxLength then full
    else if maxLength ≤ parts.1.data.length + 1 then
      String.mk ((jsTrimEndL parts.1.data).take maxLength)
    else
      parts.1 ++ String.mk (jsTrimEndL (parts.2.data.take (maxLength - parts.1.data.length - 1))) ++ "…"

/-! ### Reasoning-block stripping and line selection (`normalizeMessage`) -/

/-- Split `cs` at the first case-insensitive occurrence of `tag`,
returning the part before it and the part after it. -/
def splitAtTag (tag : List Char) : List Char → Option (List Char × List Char)
  | [] => if ([] : List Char).map jsLower = tag ∧ tag.length = 0 then some ([], []) else none
  | x :: xs =>
    if ((x :: xs).take tag.length).map jsLower = tag ∧ tag.length ≤ xs.length + 1 then
      some ([], (x :: xs).drop tag.length)
    else
      match splitAtTag tag xs with
      | some (pre, post) => some (x :: pre, post)
      | none => none

/-- One global pass of `replace(/<tag>[\\s\\S]*?<\\/tag>/gi, "\\n")`: each
open tag paired with the nearest later close tag is replaced, with a
line break, repeatedly.  The fuel is the input length, which bounds the
number of replacements since every step consumes at least the open tag. -/
def replaceThinkBlocksFuel (openT closeT : List Char) : Nat → List Char → List Char
  | 0, cs => cs
  | Nat.succ n, cs =>
    match splitAtTag openT cs with
    | none => cs
    | some (pre, rest) =>
      match splitAtTag closeT rest with
      | none => cs
      | some (_, post) => pre ++ '\n' :: replaceThinkBlocksFuel openT closeT n post

def replaceThinkBlocks (openT closeT cs : List Char) : List Char :=
  replaceThinkBlocksFuel openT closeT cs.length cs

def strayTags : List (List Char) :=
  ["<think>".data, "</think>".data, "<thinking>".data, "</thinking>".data]

/-- `replace(/<\\/?(think|thinking)>/gi, "\\n")`: every remaining bare
open or close tag becomes a line break. -/
def stripStrayTagsFuel : Nat → List Char → List Char
  | 0, cs => cs
  | Nat.succ _, [] => []
  | Nat.succ n, x :: xs =>
    match strayTags.findSome? (fun tag =>
        if ((x :: xs).take tag.length).map jsLower = tag then some tag.length else none) with
    | some k => '\n' :: stripStrayTagsFuel n ((x :: xs).drop k)
    | none => x :: stripStrayTagsFuel n xs

def stripStrayTags (cs : List Char) : List Char :=
  stripStrayTagsFuel cs.length cs

/-- JS `split(/\\r?\\n/)`. -/
def splitLines : List Char → List (List Char)
  | [] => [[]]
  | '\r' :: '\n' :: rest => [] :: splitLines rest
  | '\n' :: rest => [] :: splitLines rest
  | c :: rest =>
    match splitLines rest with
    | l :: ls => (c :: l) :: ls
    | [] => [[c]]

/-- `normalizeMessage` from `core/ai`: strip reasoning blocks, split
into lines, trim quotes and whitespace from each, pick the first line
that is non-empty and not a bare code fence, and format it. -/
def normalizeMessage (raw : String) (maxLength : Nat) : String :=
  let w1 := replaceThinkBlocks "<think>".data "</think>".data raw.data
  let w2 := replaceThinkBlocks "<thinking>".data "</thinking>".data w1
  let w3 := stripStrayTags w2
  let cleaned := (((splitLines w3).map (fun l => jsTrimL (stripQuotesL l))).find?
    (fun l => l.length > 0 && !(l = "```".data))).getD []
  if cleaned.length = 0 then "" else formatTypedMessage (String.mk cleaned) maxLength

/-! ## Provider and model resolution -/

structure TokenUsage where
  promptTokens : Nat := 0
  completionTokens : Nat := 0
  totalTokens : Nat := 0
deriving DecidableEq, Repr

structure CommitSummary where
  nameStatus : String := ""
  diffStat : String := ""
  patch : String := ""
deriving DecidableEq, Repr

/-- Provider entry of the AI configuration.  The optional extra
`headers` of the source are omitted: they are only merged into the
outbound HTTP headers, which this model does not inspect. -/
structure AIProviderConfig where
  api : String
  baseUrl : String
  apiKey : Option String := none
  apiKeyEnv : Option String := none
deriving DecidableEq, Repr

structure AIConfig where
  enabled : Bool
  timeoutMs : Nat
  model : String
  defaultProvider : String
  providers : List (String × AIProviderConfig)
deriving DecidableEq, Repr

structure AIGenerateResult where
  message : Option String := none
  usage : Option TokenUsage := none
  warning : Option String := none
deriving DecidableEq, Repr

/-- `splitModelRef` from `core/ai`: split the trimmed reference at its
FIRST `/`; with no `/` the provider falls back to `defaultProvider`. -/
def splitModelRef (modelRef defaultProvider : String) : String × String :=
  let trimmed := jsTrim modelRef
  if '/' ∈ trimmed.data then
    (jsTrim (String.mk (trimmed.data.takeWhile (fun c => !(c = '/')))),
     jsTrim (String.mk ((trimmed.data.dropWhile (fun c => !(c = '/'))).tail)))
  else (defaultProvider, trimmed)

/-- The characters after the LAST `/` (the whole string if there is
none). -/
def afterLastSlash (cs : List Char) : List Char :=
  (cs.reverse.takeWhile (fun c => !(c = '/'))).reverse

def minimaxModelAliases : List (String × String) :=
  [("minimax-m2.5", "MiniMax-M2.5"), ("minimax-m2.5-highspeed", "MiniMax-M2.5-highspeed"),
   ("minimax-m2.1", "MiniMax-M2.1"), ("minimax-m2.1-highspeed", "MiniMax-M2.1-highspeed"),
   ("minimax-m2", "MiniMax-M2"), ("minimax-text-01", "MiniMax-Text-01"),
   ("text-01", "MiniMax-Text-01")]

/-- `normalizeProviderModel` from `core/ai`: keep only the part after
the LAST `/` of the trimmed model, then apply the minimax alias table
when the provider is minimax. -/
def normalizeProviderModel (provider model : String) : String :=
  let trimmed := jsTrim model
  let raw := if '/' ∈ trimmed.data then String.mk (afterLastSlash trimmed.data) else trimmed
  if provider = "minimax" then (minimaxModelAliases.lookup (lowerStr raw)).getD raw
  else raw

/-- `minimaxFallbackModel` from `core/ai`. -/
def minimaxFallbackModel (model : String) : Option String :=
  if model = "MiniMax-Text-01" then none else some "MiniMax-Text-01"

/-- Prefix-accepting variant of `rmatch` (token list exhausted means
success): the building block of `RegExp.prototype.test`, which searches
for a match starting anywhere and ending anywhere. -/
def pmatch : List GTok → List Char → Bool
  | [], _ => true
  | .lit c :: ts, cs =>
    match cs with
    | [] => false
    | x :: xs => c = x && pmatch ts xs
  | .qmark :: ts, cs =>
    match cs with
    | [] => false
    | x :: xs => !isLineTerm x && pmatch ts xs
  | .star :: ts, cs => (starSuffixes (fun c => !(c = '/')) cs).any (fun s => pmatch ts s)
  | .dstar :: ts, cs => (starSuffixes (fun c => !isLineTerm c) cs).any (fun s => pmatch ts s)
  | .wsPlus :: ts, cs => (wsSuffixes cs).any (fun s => pmatch ts s)

/-- `regex.test(s)`: some alternative matches starting at some
position. -/
def regexSearch (alts : List (List GTok)) (cs : List Char) : Bool :=
  cs.tails.any (fun suf => alts.any (fun a => pmatch a suf))

def litToks (s : String) : List GTok := s.data.map GTok.lit

/-- The alternatives of
`/unknown\\s+model|invalid\\s+model|model.*not\\s+found|does\\s+not\\s+exist|not\\s+supported/i`,
as token lists over a lowercased subject. -/
def unknownModelAlts : List (List GTok) :=
  [litToks "unknown" ++ [GTok.wsPlus] ++ litToks "model",
   litToks "invalid" ++ [GTok.wsPlus] ++ litToks "model",
   litToks "model" ++ [GTok.dstar] ++ litToks "not" ++ [GTok.wsPlus] ++ litToks "found",
   litToks "does" ++ [GTok.wsPlus] ++ litToks "not" ++ [GTok.wsPlus] ++ litToks "exist",
   litToks "not" ++ [GTok.wsPlus] ++ litToks "supported"]

/-- `isUnknownModelError` from `core/ai`: 4xx status and a body matching
the unknown/invalid/not-supported-model pattern. -/
def isUnknownModelError (status : Nat) (body : String) : Bool :=
  if status < 400 ∨ 500 ≤ status then false
  else regexSearch unknownModelAlts (body.data.map jsLower)

/-! ## The HTTP boundary

Each `fetch` is replaced by an oracle `FetchOutcome` describing what the
network did: a 2xx response with its (already JSON-parsed) payload, a
non-2xx response with status and body text, a rejected promise
(network failure), or an abort fired by the timeout controller.  The
rejection cases are JS exceptions, so the request helpers return them
in `Except`, caught at the `try/catch` of `generateCommitMessage`. -/

structure ChatUsagePayload where
  prompt_tokens : Option Nat := none
  completion_tokens : Option Nat := none
  total_tokens : Option Nat := none
deriving DecidableEq, Repr

structure MsgsUsagePayload where
  input_tokens : Option Nat := none
  output_tokens : Option Nat := none
deriving DecidableEq, Repr

/-- Parsed body of a 2xx response, from which the openai-completions
extractor reads `choices[0].message.content` / `usage.*_tokens`
(`chatContent`, `chatUsage`) and the anthropic-messages extractor reads
the first text block and `usage.input/output_tokens` (`msgText`,
`msgUsage`). -/
structure OkPayload where
  chatContent : Option String := none
  chatUsage : Option ChatUsagePayload := none
  msgText : Option String := none
  msgUsage : Option MsgsUsagePayload := none
deriving DecidableEq, Repr

inductive FetchOutcome where
  | ok (payload : OkPayload)
  | httpError (status : Nat) (body : String)
  | netError (msg : String)
  | abort
deriving DecidableEq, Repr

inductive JsError where
  | abortError
  | fetchError (msg : String)
deriving DecidableEq, Repr

inductive ReqResult where
  | success (payload : OkPayload)
  | failure (status : Nat) (body : String)
deriving DecidableEq, Repr

def requestOutcome : FetchOutcome → Except JsError ReqResult
  | .ok p => .ok (.success p)
  | .httpError s b => .ok (.failure s b)
  | .netError m => .error (.fetchError m)
  | .abort => .error .abortError

def mapChatUsage (u : Option ChatUsagePayload) : Option TokenUsage :=
  u.map (fun p => ⟨p.prompt_tokens.getD 0, p.completion_tokens.getD 0, p.total_tokens.getD 0⟩)

def mapMsgsUsage (u : Option MsgsUsagePayload) : Option TokenUsage :=
  u.map (fun p => ⟨p.input_tokens.getD 0, p.output_tokens.getD 0,
    p.input_tokens.getD 0 + p.output_tokens.getD 0⟩)

structure StyleResult where
  content : Option String := none
  usage : Option TokenUsage := none
  error : Option String := none
deriving DecidableEq, Repr

/-- JS `body.slice(0, n)`. -/
def sliceStr (s : String) (n : Nat) : String := String.mk (s.data.take n)

/-- `getApiKey` from `core/ai`: a non-blank explicit key wins, else the
named environment variable (a missing or empty variable, or a missing
or empty `apiKeyEnv` name, yields no key). -/
def getApiKey (pc : AIProviderConfig) (env : List (String × String)) : Option String :=
  let fromExplicit :=
    match pc.apiKey with
    | some k => if (jsTrimL k.data).length > 0 then some (jsTrim k) else none
    | none => none
  match fromExplicit with
  | some k => some k
  | none =>
    match pc.apiKeyEnv with
    | none => none
    | some name =>
      if name = "" then none
      else
        match env.lookup name with
        | none => none
        | some v => if v = "" then none else some (jsTrim v)

def apos : String := String.singleton (Char.ofNat 39)

def joinKeys (ks : List String) : String :=
  if ks = [] then "none" else String.intercalate ", " ks

def missingKeyWarning (provider : String) (pc : AIProviderConfig) : String :=
  match pc.apiKeyEnv with
  | some envName =>
    if envName = "" then
      "no API key configured for provider \"" ++ provider ++ "\" — set apiKeyEnv or apiKey in config"
    else
      "API key not found — env var \"" ++ envName ++ "\" is not set. Run: export " ++
        envName ++ "=" ++ apos ++ "your-key" ++ apos
  | none =>
    "no API key configured for provider \"" ++ provider ++ "\" — set apiKeyEnv or apiKey in config"

/-- `validateAIConfig` from `core/ai`. -/
def validateAIConfig (ai : AIConfig) (env : List (String × String)) : Option String :=
  if ai.enabled = false then some "ai.enabled is false"
  else if (splitModelRef ai.model ai.defaultProvider).1 = "" ∨
      (splitModelRef ai.model ai.defaultProvider).2 = "" then
    some ("invalid ai.model \"" ++ ai.model ++ "\" — expected \"provider/model\" format")
  else
    match ai.providers.lookup (splitModelRef ai.model ai.defaultProvider).1 with
    | none =>
      some ("provider \"" ++ (splitModelRef ai.model ai.defaultProvider).1 ++
        "\" not found in ai.providers (available: " ++
        joinKeys (ai.providers.map Prod.fst) ++ ")")
    | some pc =>
      match getApiKey pc env with
      | some k =>
        if k = "" then some (missingKeyWarning (splitModelRef ai.model ai.defaultProvider).1 pc)
        else none
      | none => some (missingKeyWarning (splitModelRef ai.model ai.defaultProvider).1 pc)

/-- `generateOpenAiStyleMessage` from `core/ai` (part of the current
revision, with the minimax model-fallback retry).  `o1` is the outcome
of the first request, `o2` of the retry (consumed only when the retry is
issued).  The second component lists the model names of the requests
actually issued. -/
def generateOpenAiStyleMessage (providerName : String) (_pc : AIProviderConfig) (model : String)
    (_summary : CommitSummary) (_maxLength : Nat) (o1 o2 : FetchOutcome) :
    Except JsError StyleResult × List String :=
  match requestOutcome o1 with
  | .error e => (.error e, [model])
  | .ok (.success p) => (.ok ⟨p.chatContent, mapChatUsage p.chatUsage, none⟩, [model])
  | .ok (.failure s b) =>
    if providerName = "minimax" ∧ isUnknownModelError s b = true then
      match minimaxFallbackModel model with
      | some fb =>
        match requestOutcome o2 with
        | .error e => (.error e, [model, fb])
        | .ok (.success p) => (.ok ⟨p.chatContent, mapChatUsage p.chatUsage, none⟩, [model, fb])
        | .ok (.failure s2 b2) =>
          (.ok ⟨none, none, some ("HTTP " ++ toString s ++ ": " ++ sliceStr b 200 ++
            " | retry(" ++ fb ++ ") HTTP " ++ toString s2 ++ ": " ++ sliceStr b2 120)⟩,
            [model, fb])
      | none => (.ok ⟨none, none, some ("HTTP " ++ toString s ++ ": " ++ sliceStr b 200)⟩, [model])
    else (.ok ⟨none, none, some ("HTTP " ++ toString s ++ ": " ++ sliceStr b 200)⟩, [model])

/-- `generateAnthropicStyleMessage` from `core/ai`. -/
def generateAnthropicStyleMessage (pc : AIProviderConfig) (env : List (String × String))
    (model : String) (_summary : CommitSummary) (_maxLength : Nat) (o1 : FetchOutcome) :
    Except JsError StyleResult × List String :=
  match getApiKey pc env with
  | none => (.ok ⟨none, none, some "no API key"⟩, [])
  | some k =>
    if k = "" then (.ok ⟨none, none, some "no API key"⟩, [])
    else
      match requestOutcome o1 with
      | .error e => (.error e, [model])
      | .ok (.success p) => (.ok ⟨p.msgText, mapMsgsUsage p.msgUsage, none⟩, [model])
      | .ok (.failure s b) =>
        (.ok ⟨none, none, some ("HTTP " ++ toString s ++ ": " ++ sliceStr b 200)⟩, [model])

/-- The tail of `generateCommitMessage`: the `try/catch` that converts a
thrown abort into the timeout warning and any other rejection into an
"AI request failed" warning, and the normalization of a successful
response. -/
def finishGenerate (timeoutMs : Nat) (r : Except JsError StyleResult × List String)
    (maxLength : Nat) : AIGenerateResult × List String :=
  match r.1 with
  | .error .abortError =>
    (⟨none, none, some ("AI request timed out after " ++ toString timeoutMs ++ "ms")⟩, r.2)
  | .error (.fetchError m) =>
    (⟨none, none, some ("AI request failed: " ++ m)⟩, r.2)
  | .ok sr =>
    match sr.error with
    | some e => (⟨none, sr.usage, some e⟩, r.2)
    | none =>
      (⟨if normalizeMessage (sr.content.getD "") maxLength = "" then none
        else some (normalizeMessage (sr.content.getD "") maxLength), sr.usage, none⟩, r.2)

/-- `generateCommitMessage` from `core/ai` (current revision): validate,
resolve provider and model, dispatch on the protocol flavor, catch
thrown aborts and network failures, and normalize the response. The
second component again lists the model names of the issued requests. -/
def generateCommitMessage (ai : AIConfig) (env : List (String × String))
    (summary : CommitSummary) (maxLength : Nat) (o1 o2 : FetchOutcome) :
    AIGenerateResult × List String :=
  if ai.enabled = false then (⟨none, none, none⟩, [])
  else
    match validateAIConfig ai env with
    | some w => (⟨none, none, some w⟩, [])
    | none =>
      match ai.providers.lookup (splitModelRef ai.model ai.defaultProvider).1 with
      | none => (⟨none, none, some "provider missing"⟩, [])
      | some pc =>
        finishGenerate ai.timeoutMs
          (if pc.api = "openai-completions" then
            generateOpenAiStyleMessage (splitModelRef ai.model ai.defaultProvider).1 pc
              (normalizeProviderModel (splitModelRef ai.model ai.defaultProvider).1
                (splitModelRef ai.model ai.defaultProvider).2)
              summary maxLength o1 o2
          else
            generateAnthropicStyleMessage pc env
              (normalizeProviderModel (splitModelRef ai.model ai.defaultProvider).1
                (splitModelRef ai.model ai.defaultProvider).2)
              summary maxLength o1)
          maxLength


/-! ## Claims about the message engine (request routing, retry, failure) -/

theorem isUnknownModelError_of (s : Nat) (b : String) (h1 : 400 ≤ s) (h2 : s < 500)
    (h3 : regexSearch unknownModelAlts (b.data.map jsLower) = true) :
    isUnknownModelError s b = true := by
  unfold isUnknownModelError
  rw [if_neg (by omega)]
  exact h3

theorem openai_requested_head (pn : String) (pc : AIProviderConfig) (model : String)
    (sm : CommitSummary) (mx : Nat) (o1 o2 : FetchOutcome) :
    (generateOpenAiStyleMessage pn pc model sm mx o1 o2).2.head? = some model := by
  unfold generateOpenAiStyleMessage
  cases o1 with
  | ok p => rfl
  | netError m => rfl
  | abort => rfl
  | httpError s b =>
    dsimp only [requestOutcome]
    by_cases hc : pn = "minimax" ∧ isUnknownModelError s b = true
    · rw [if_pos hc]
      cases hfb : minimaxFallbackModel model with
      | none => rfl
      | some fb => cases o2 <;> rfl
    · rw [if_neg hc]
      rfl

theorem anthropic_requested_head (pc : AIProviderConfig) (env : List (String × String))
    (model : String) (sm : CommitSummary) (mx : Nat) (o1 : FetchOutcome)
    (k : String) (hk : getApiKey pc env = some k) (hkne : ¬ k = "") :
    (generateAnthropicStyleMessage pc env model sm mx o1).2.head? = some model := by
  unfold generateAnthropicStyleMessage
  simp only [hk]
  rw [if_neg hkne]
  cases o1 <;> rfl

theorem validate_none_facts (ai : AIConfig) (env : List (String × String))
    (h : validateAIConfig ai env = none) :
    ai.enabled = true ∧
    ∃ pc, ai.providers.lookup (splitModelRef ai.model ai.defaultProvider).1 = some pc ∧
      ∃ k, getApiKey pc env = some k ∧ ¬ k = "" := by
  unfold validateAIConfig at h
  by_cases he : ai.enabled = false
  · rw [if_pos he] at h; simp at h
  · rw [if_neg he] at h
    refine ⟨by revert he; cases ai.enabled <;> simp, ?_⟩
    by_cases hpm : (splitModelRef ai.model ai.defaultProvider).1 = "" ∨
        (splitModelRef ai.model ai.defaultProvider).2 = ""
    · rw [if_pos hpm] at h; simp at h
    · rw [if_neg hpm] at h
      cases hl : ai.providers.lookup (splitModelRef ai.model ai.defaultProvider).1 with
      | none => simp only [hl] at h; simp at h
      | some pc =>
        simp only [hl] at h
        refine ⟨pc, rfl, ?_⟩
        cases hk : getApiKey pc env with
        | none => simp only [hk] at h; simp at h
        | some k =>
          simp only [hk] at h
          by_cases hke : k = ""
          · rw [if_pos hke] at h; simp at h
          · exact ⟨k, rfl, hke⟩

theorem finishGenerate_snd (t : Nat) (r : Except JsError StyleResult × List String) (mx : Nat) :
    (finishGenerate t r mx).2 = r.2 := by
  unfold finishGenerate
  rcases r with ⟨e, l⟩
  cases e with
  | error je => cases je <;> rfl
  | ok sr => cases hsr : sr.error <;> simp [hsr]

theorem not_mem_takeWhile_slash (l : List Char) :
    '/' ∉ l.takeWhile (fun c => !(c = '/')) := by
  intro hmem
  have := List.mem_takeWhile_imp hmem
  simp at this

theorem mem_dropWhile_slash (l : List Char) (h : '/' ∈ l) :
    ∃ t, l.dropWhile (fun c => !(c = '/')) = '/' :: t := by
  induction l with
  | nil => cases h
  | cons x xs ih =>
    by_cases hx : x = '/'
    · subst hx
      exact ⟨xs, by simp [List.dropWhile]⟩
    · have hmem : '/' ∈ xs := by
        rcases List.mem_cons.mp h with h1 | h1
        · exact absurd h1.symm hx
        · exact h1
      rcases ih hmem with ⟨t, ht⟩
      refine ⟨t, ?_⟩
      simp [List.dropWhile, hx, ht]

/-- C8: for the minimax provider, a first request failing with 4xx and a
body matching the unknown/invalid/not-supported-model pattern triggers
exactly one retry against MiniMax-Text-01 (none when the model already
is MiniMax-Text-01); when the retry also fails, the single warning
combines both error bodies truncated to 200 and 120 characters; any
other provider, and any non-4xx or non-matching failure, issues no
retry. -/
theorem minimax_fallback_retry_spec :
    (∀ (pc : AIProviderConfig) (model : String) (sm : CommitSummary) (mx : Nat)
        (s : Nat) (b : String) (o2 : FetchOutcome),
      400 ≤ s → s < 500 → regexSearch unknownModelAlts (b.data.map jsLower) = true →
      model ≠ "MiniMax-Text-01" →
      (generateOpenAiStyleMessage "minimax" pc model sm mx (.httpError s b) o2).2 =
        [model, "MiniMax-Text-01"]) ∧
    (∀ (pc : AIProviderConfig) (model : String) (sm : CommitSummary) (mx : Nat)
        (s s2 : Nat) (b b2 : String),
      400 ≤ s → s < 500 → regexSearch unknownModelAlts (b.data.map jsLower) = true →
      model ≠ "MiniMax-Text-01" →
      (generateOpenAiStyleMessage "minimax" pc model sm mx (.httpError s b)
          (.httpError s2 b2)).1 =
        .ok ⟨none, none, some ("HTTP " ++ toString s ++ ": " ++ sliceStr b 200 ++
          " | retry(" ++ "MiniMax-Text-01" ++ ") HTTP " ++ toString s2 ++ ": " ++
          sliceStr b2 120)⟩) ∧
    (∀ (pn : String) (pc : AIProviderConfig) (model : String) (sm : CommitSummary) (mx : Nat)
        (s : Nat) (b : String) (o2 : FetchOutcome),
      pn ≠ "minimax" ∨ isUnknownModelError s b = false →
      (generateOpenAiStyleMessage pn pc model sm mx (.httpError s b) o2).2 = [model]) ∧
    (∀ (pc : AIProviderConfig) (sm : CommitSummary) (mx : Nat) (s : Nat) (b : String)
        (o2 : FetchOutcome),
      (generateOpenAiStyleMessage "minimax" pc "MiniMax-Text-01" sm mx
          (.httpError s b) o2).2 = ["MiniMax-Text-01"]) := by
  have hfb : ∀ model : String, model ≠ "MiniMax-Text-01" →
      minimaxFallbackModel model = some "MiniMax-Text-01" := by
    intro model hm
    unfold minimaxFallbackModel
    rw [if_neg hm]
  refine ⟨?_, ?_, ?_, ?_⟩
  · intro pc model sm mx s b o2 h1 h2 h3 hm
    unfold generateOpenAiStyleMessage
    dsimp only [requestOutcome]
    rw [if_pos ⟨rfl, isUnknownModelError_of s b h1 h2 h3⟩]
    simp only [hfb model hm]
    cases o2 <;> rfl
  · intro pc model sm mx s s2 b b2 h1 h2 h3 hm
    unfold generateOpenAiStyleMessage
    dsimp only [requestOutcome]
    rw [if_pos ⟨rfl, isUnknownModelError_of s b h1 h2 h3⟩]
    simp only [hfb model hm]
  · intro pn pc model sm mx s b o2 hcond
    unfold generateOpenAiStyleMessage
    dsimp only [requestOutcome]
    rw [if_neg (by
      rintro ⟨hpn, hu⟩
      rcases hcond with hc | hc
      · exact hc hpn
      · rw [hu] at hc; simp at hc)]
  · intro pc sm mx s b o2
    unfold generateOpenAiStyleMessage
    dsimp only [requestOutcome]
    by_cases hc : ("minimax" : String) = "minimax" ∧ isUnknownModelError s b = true
    · rw [if_pos hc]
      have : minimaxFallbackModel "MiniMax-Text-01" = none := by
        unfold minimaxFallbackModel
        rw [if_pos rfl]
      simp only [this]
    · rw [if_neg hc]

/-- C8 (witness): concrete instantiations of the retry law — a matching
404 on model MiniMax-M2 retries once against MiniMax-Text-01, a second
404 combines the two truncated bodies, a non-minimax provider does not
retry, and the model MiniMax-Text-01 itself is never retried. -/
theorem minimax_fallback_retry_spec_witness :
    (generateOpenAiStyleMessage "minimax" ⟨"openai-completions", "u", some "k", none⟩
        "MiniMax-M2" {} 72 (.httpError 404 "unknown model") (.httpError 404 "bad")).2 =
      ["MiniMax-M2", "MiniMax-Text-01"] ∧
    (generateOpenAiStyleMessage "minimax" ⟨"openai-completions", "u", some "k", none⟩
        "MiniMax-M2" {} 72 (.httpError 404 "unknown model") (.httpError 404 "bad")).1 =
      .ok ⟨none, none, some ("HTTP " ++ toString 404 ++ ": " ++ sliceStr "unknown model" 200 ++
        " | retry(" ++ "MiniMax-Text-01" ++ ") HTTP " ++ toString 404 ++ ": " ++
        sliceStr "bad" 120)⟩ ∧
    (generateOpenAiStyleMessage "openai" ⟨"openai-completions", "u", some "k", none⟩
        "gpt-4.1-mini" {} 72 (.httpError 404 "unknown model") (.httpError 404 "bad")).2 =
      ["gpt-4.1-mini"] ∧
    (generateOpenAiStyleMessage "minimax" ⟨"openai-completions", "u", some "k", none⟩
        "MiniMax-Text-01" {} 72 (.httpError 404 "unknown model") (.httpError 404 "bad")).2 =
      ["MiniMax-Text-01"] :=
  ⟨minimax_fallback_retry_spec.1 _ "MiniMax-M2" {} 72 404 "unknown model" _
      (by decide) (by decide) (by decide) (by decide),
    minimax_fallback_retry_spec.2.1 _ "MiniMax-M2" {} 72 404 404 "unknown model" "bad"
      (by decide) (by decide) (by decide) (by decide),
    minimax_fallback_retry_spec.2.2.1 "openai" _ "gpt-4.1-mini" {} 72 404 "unknown model" _
      (Or.inl (by decide)),
    minimax_fallback_retry_spec.2.2.2 _ {} 72 404 "unknown model" _⟩


/-! ## Claim C6: provider/model resolution -/

/-- Configuration with a doubly-slashed model reference, for the C6
counterexample. -/
def slashRefConfig : AIConfig :=
  ⟨true, 15000, "p/a/b", "p",
    [("p", ⟨"openai-completions", "https://example.invalid/v1", some "k", none⟩)]⟩

/-- C6 (counterexample): with `ai.model = "p/a/b"` the model name sent
in the outbound request is `"b"` — `normalizeProviderModel` keeps only
the part after the LAST slash — not the whole remainder `"a/b"` claimed
by the specification. -/
theorem requested_model_last_segment_counterexample :
    (generateCommitMessage slashRefConfig [] {} 72 (.ok {}) (.ok {})).2 = ["b"] ∧
      ("b" : String) ≠ "a/b" := by
  constructor
  · decide
  · decide

/-- C6 (amended): the effective provider is the trimmed text before the
FIRST `/` of the trimmed `ai.model` (or `defaultProvider` when there is
no `/`), and the validated model is the trimmed remainder after that
first `/` (or the whole trimmed string); but the model name sent in the
outbound request is `normalizeProviderModel` of that pair, which keeps
only the segment after the LAST `/` of the model (so for `p/a/b` the
request carries `"b"`, not `"a/b"`), plus the minimax alias mapping. -/
theorem modelRef_resolution_spec :
    (∀ s d : String, '/' ∉ jsTrimL s.data → splitModelRef s d = (d, jsTrim s)) ∧
    (∀ s d : String, '/' ∈ jsTrimL s.data →
      ∃ pre post : List Char,
        jsTrimL s.data = pre ++ '/' :: post ∧ '/' ∉ pre ∧
        splitModelRef s d = (jsTrim (String.mk pre), jsTrim (String.mk post))) ∧
    (∀ pv md : String, pv ≠ "minimax" →
      '/' ∉ (normalizeProviderModel pv md).data ∧
      (normalizeProviderModel pv md = jsTrim md ∨
        ∃ pre : List Char,
          jsTrimL md.data = pre ++ '/' :: (normalizeProviderModel pv md).data)) ∧
    (∀ (ai : AIConfig) (env : List (String × String)) (sm : CommitSummary) (mx : Nat)
        (o1 o2 : FetchOutcome), validateAIConfig ai env = none →
      (generateCommitMessage ai env sm mx o1 o2).2.head? =
        some (normalizeProviderModel (splitModelRef ai.model ai.defaultProvider).1
          (splitModelRef ai.model ai.defaultProvider).2)) := by
  refine ⟨?_, ?_, ?_, ?_⟩
  · intro s d hns
    unfold splitModelRef
    rw [if_neg (by
      intro hmem
      exact hns (by simpa [jsTrim] using hmem))]
  · intro s d hmem
    have hmem2 : '/' ∈ (jsTrim s).data := by simpa [jsTrim] using hmem
    refine ⟨(jsTrim s).data.takeWhile (fun c => !(c = '/')),
      ((jsTrim s).data.dropWhile (fun c => !(c = '/'))).tail, ?_, ?_, ?_⟩
    · rcases mem_dropWhile_slash (jsTrim s).data hmem2 with ⟨t, ht⟩
      have := List.takeWhile_append_dropWhile (fun c => !(c = '/')) (jsTrim s).data
      rw [ht] at this
      calc jsTrimL s.data = (jsTrim s).data := by simp [jsTrim]
        _ = (jsTrim s).data.takeWhile (fun c => !(c = '/')) ++ '/' :: t := this.symm
        _ = _ := by
          rw [ht]
          simp
    · exact not_mem_takeWhile_slash _
    · unfold splitModelRef
      rw [if_pos hmem2]
  · intro pv md hpv
    unfold normalizeProviderModel
    rw [if_neg hpv]
    by_cases hmem : '/' ∈ (jsTrim md).data
    · rw [if_pos hmem]
      constructor
      · intro hc
        have hc2 : '/' ∈ (jsTrim md).data.reverse.takeWhile (fun c => !(c = '/')) := by
          have : (String.mk (afterLastSlash (jsTrim md).data)).data =
              afterLastSlash (jsTrim md).data := rfl
          rw [this] at hc
          unfold afterLastSlash at hc
          simpa using hc
        have := List.mem_takeWhile_imp hc2
        simp at this
      · right
        have hmemrev : '/' ∈ (jsTrim md).data.reverse := by simpa using hmem
        rcases mem_dropWhile_slash (jsTrim md).data.reverse hmemrev with ⟨t, ht⟩
        have hsplit := List.takeWhile_append_dropWhile (fun c => !(c = '/'))
          (jsTrim md).data.reverse
        rw [ht] at hsplit
        refine ⟨t.reverse, ?_⟩
        have h2 := congrArg List.reverse hsplit
        simp only [List.reverse_append, List.reverse_cons, List.reverse_reverse,
          List.append_assoc, List.singleton_append] at h2
        exact h2.symm
    · rw [if_neg hmem]
      refine ⟨?_, Or.inl rfl⟩
      intro hc
      exact hmem hc
  · intro ai env sm mx o1 o2 hval
    obtain ⟨hen, pc, hpc, k, hk, hkne⟩ := validate_none_facts ai env hval
    unfold generateCommitMessage
    rw [if_neg (by rw [hen]; simp)]
    simp only [hval, hpc]
    rw [finishGenerate_snd]
    by_cases hapi : pc.api = "openai-completions"
    · rw [if_pos hapi]
      exact openai_requested_head _ _ _ _ _ _ _
    · rw [if_neg hapi]
      exact anthropic_requested_head pc env _ sm mx o1 k hk hkne

/-- C6 (witness): the amended law at concrete inputs: `"p/a/b"` splits
into provider `p` and model `a/b`; for a non-minimax provider the sent
model is the last segment; with no slash the provider falls back; and
the end-to-end request for `slashRefConfig` carries exactly the
normalized model. -/
theorem modelRef_resolution_spec_witness :
    splitModelRef "gpt-4.1-mini" "openai" = ("openai", jsTrim "gpt-4.1-mini") ∧
    (∃ pre post : List Char,
      jsTrimL "p/a/b".data = pre ++ '/' :: post ∧ '/' ∉ pre ∧
      splitModelRef "p/a/b" "openai" = (jsTrim (String.mk pre), jsTrim (String.mk post))) ∧
    ('/' ∉ (normalizeProviderModel "p" "a/b").data ∧
      (normalizeProviderModel "p" "a/b" = jsTrim "a/b" ∨
        ∃ pre : List Char,
          jsTrimL "a/b".data = pre ++ '/' :: (normalizeProviderModel "p" "a/b").data)) ∧
    (generateCommitMessage slashRefConfig [] {} 72 (.ok {}) (.ok {})).2.head? =
      some (normalizeProviderModel (splitModelRef slashRefConfig.model
        slashRefConfig.defaultProvider).1
        (splitModelRef slashRefConfig.model slashRefConfig.defaultProvider).2) :=
  ⟨modelRef_resolution_spec.1 "gpt-4.1-mini" "openai" (by decide),
    modelRef_resolution_spec.2.1 "p/a/b" "openai" (by decide),
    modelRef_resolution_spec.2.2.1 "p" "a/b" (by decide),
    modelRef_resolution_spec.2.2.2 slashRefConfig [] {} 72 (.ok {}) (.ok {}) (by decide)⟩


/-! ## Claim C7: failures never escape the message engine -/

/-- Minimax configuration whose first request fails with an
unknown-model 404 but whose fallback retry succeeds. -/
def minimaxRetryConfig : AIConfig :=
  ⟨true, 15000, "minimax/MiniMax-M2", "minimax",
    [("minimax", ⟨"openai-completions", "https://api.minimaxi.chat/v1", some "k", none⟩)]⟩

/-- C7 (counterexample): a non-2xx first response does NOT always yield
an absent message: when the minimax fallback retry answers 2xx, the
result carries the retry message even though the input contained a
non-2xx HTTP response. -/
theorem non2xx_with_message_counterexample :
    (generateCommitMessage minimaxRetryConfig [] {} 72
      (.httpError 404 "unknown model") (.ok ⟨some "feat: x", none, none, none⟩)).1.message =
      some "feat: x" := by
  decide

theorem finishGenerate_failure (t mx : Nat) (r : Except JsError StyleResult × List String)
    (h : (∃ e, r.1 = .error e) ∨ (∃ sr w, r.1 = .ok sr ∧ sr.error = some w)) :
    (finishGenerate t r mx).1.message = none ∧
      ((finishGenerate t r mx).1.warning).isSome = true := by
  unfold finishGenerate
  rcases h with ⟨e, he⟩ | ⟨sr, w, hsr, hw⟩
  · rw [he]; cases e <;> simp
  · rw [hsr]; simp [hw]

theorem openai_httpError_failure (pn : String) (pc : AIProviderConfig) (model : String)
    (sm : CommitSummary) (mx : Nat) (s : Nat) (b : String) (o2 : FetchOutcome)
    (ho2 : ∀ p : OkPayload, o2 ≠ .ok p) :
    (∃ e, (generateOpenAiStyleMessage pn pc model sm mx (.httpError s b) o2).1 = .error e) ∨
    (∃ sr w, (generateOpenAiStyleMessage pn pc model sm mx (.httpError s b) o2).1 = .ok sr ∧
      sr.error = some w) := by
  unfold generateOpenAiStyleMessage
  dsimp only [requestOutcome]
  by_cases hc : pn = "minimax" ∧ isUnknownModelError s b = true
  · rw [if_pos hc]
    cases hfb : minimaxFallbackModel model with
    | none => right; exact ⟨_, _, rfl, rfl⟩
    | some fb =>
      cases o2 with
      | ok p => exact absurd rfl (ho2 p)
      | httpError s2 b2 => right; exact ⟨_, _, rfl, rfl⟩
      | netError m => left; exact ⟨_, rfl⟩
      | abort => left; exact ⟨_, rfl⟩
  · rw [if_neg hc]; right; exact ⟨_, _, rfl, rfl⟩

theorem anthropic_style_eq (pc : AIProviderConfig) (env : List (String × String))
    (model : String) (sm : CommitSummary) (mx : Nat) (o1 : FetchOutcome)
    (k : String) (hk : getApiKey pc env = some k) (hkne : ¬ k = "") :
    generateAnthropicStyleMessage pc env model sm mx o1 =
      match requestOutcome o1 with
      | .error e => (.error e, [model])
      | .ok (.success p) => (.ok ⟨p.msgText, mapMsgsUsage p.msgUsage, none⟩, [model])
      | .ok (.failure s b) =>
        (.ok ⟨none, none, some ("HTTP " ++ toString s ++ ": " ++ sliceStr b 200)⟩, [model]) := by
  unfold generateAnthropicStyleMessage
  simp only [hk]
  rw [if_neg hkne]

/-- C7 (amended): `generateCommitMessage` never propagates an
exception; when the attempt ends in failure — a network failure, a
timeout abort (whose warning names the configured `timeoutMs`), or a
non-2xx response that is not answered by a successful minimax fallback
retry — the result has an absent message and a warning string.  (A
non-2xx first response answered by a successful retry yields the retry
message instead, per the counterexample.) -/
theorem generateCommitMessage_failure_spec (ai : AIConfig) (env : List (String × String))
    (sm : CommitSummary) (mx : Nat) (hval : validateAIConfig ai env = none) :
    (∀ (m : String) (o2 : FetchOutcome),
      (generateCommitMessage ai env sm mx (.netError m) o2).1 =
        ⟨none, none, some ("AI request failed: " ++ m)⟩) ∧
    (∀ o2 : FetchOutcome,
      (generateCommitMessage ai env sm mx .abort o2).1 =
        ⟨none, none, some ("AI request timed out after " ++ toString ai.timeoutMs ++ "ms")⟩) ∧
    (∀ (s : Nat) (b : String) (o2 : FetchOutcome), (∀ p : OkPayload, o2 ≠ .ok p) →
      (generateCommitMessage ai env sm mx (.httpError s b) o2).1.message = none ∧
      ((generateCommitMessage ai env sm mx (.httpError s b) o2).1.warning).isSome = true) := by
  obtain ⟨hen, pc, hpc, k, hk, hkne⟩ := validate_none_facts ai env hval
  have hne : ¬(ai.enabled = false) := by rw [hen]; simp
  refine ⟨?_, ?_, ?_⟩
  · intro m o2
    unfold generateCommitMessage
    rw [if_neg hne]
    simp only [hval, hpc]
    by_cases hapi : pc.api = "openai-completions"
    · rw [if_pos hapi]
      rfl
    · rw [if_neg hapi]
      rw [anthropic_style_eq pc env _ sm mx _ k hk hkne]
      rfl
  · intro o2
    unfold generateCommitMessage
    rw [if_neg hne]
    simp only [hval, hpc]
    by_cases hapi : pc.api = "openai-completions"
    · rw [if_pos hapi]
      rfl
    · rw [if_neg hapi]
      rw [anthropic_style_eq pc env _ sm mx _ k hk hkne]
      rfl
  · intro s b o2 ho2
    unfold generateCommitMessage
    rw [if_neg hne]
    simp only [hval, hpc]
    by_cases hapi : pc.api = "openai-completions"
    · rw [if_pos hapi]
      exact finishGenerate_failure _ _ _ (openai_httpError_failure _ _ _ _ _ _ _ _ ho2)
    · rw [if_neg hapi]
      rw [anthropic_style_eq pc env _ sm mx _ k hk hkne]
      exact finishGenerate_failure _ _ _ (Or.inr ⟨_, _, rfl, rfl⟩)

/-- C7 (witness): the failure-conversion law at a concrete valid
configuration: a network failure, a timeout (warning naming the 15000ms
bound) and a plain 500. -/
theorem generateCommitMessage_failure_spec_witness :
    (generateCommitMessage minimaxRetryConfig [] {} 72 (.netError "socket hang up") .abort).1 =
      ⟨none, none, some ("AI request failed: " ++ "socket hang up")⟩ ∧
    (generateCommitMessage minimaxRetryConfig [] {} 72 .abort .abort).1 =
      ⟨none, none, some ("AI request timed out after " ++ toString minimaxRetryConfig.timeoutMs ++ "ms")⟩ ∧
    ((generateCommitMessage minimaxRetryConfig [] {} 72 (.httpError 500 "boom") .abort).1.message = none ∧
      ((generateCommitMessage minimaxRetryConfig [] {} 72 (.httpError 500 "boom") .abort).1.warning).isSome = true) :=
  ⟨(generateCommitMessage_failure_spec minimaxRetryConfig [] {} 72 (by decide)).1
      "socket hang up" .abort,
    (generateCommitMessage_failure_spec minimaxRetryConfig [] {} 72 (by decide)).2.1 .abort,
    (generateCommitMessage_failure_spec minimaxRetryConfig [] {} 72 (by decide)).2.2 500 "boom"
      .abort (by intro p h; cases h)⟩


/-! ## Claim C9: the truncation law of `formatTypedMessage` -/

theorem dropWhile_length_le {α : Type} (p : α → Bool) (l : List α) :
    (l.dropWhile p).length ≤ l.length := by
  induction l with
  | nil => simp [List.dropWhile]
  | cons x xs ih =>
    simp only [List.dropWhile]
    by_cases hp : p x
    · rw [hp]
      simp only [Nat.succ_eq_add_one, List.length_cons]
      omega
    · simp [hp]

theorem jsTrimEndL_length (l : List Char) : (jsTrimEndL l).length ≤ l.length := by
  unfold jsTrimEndL
  rw [List.length_reverse]
  calc (l.reverse.dropWhile isJsWs).length ≤ l.reverse.length := dropWhile_length_le _ _
    _ = l.length := List.length_reverse l

/-- C9 (counterexample): at `maxLength = 8` the line
`"chore: hello world"` has an over-long subject and a prefix
(`"chore: "`, 7 characters) that does NOT exceed `maxLength`, yet the
result is the hard-truncated `"chore:"` without an ellipsis — the code
hard-truncates whenever fewer than two characters remain after the
prefix, not only when the prefix itself exceeds `maxLength`. -/
theorem truncation_boundary_counterexample :
    formatTypedMessage "chore: hello world" 8 = "chore:" ∧
      (messageParts "chore: hello world").1.data.length = 7 ∧
      ((messageParts "chore: hello world").1 ++
        (messageParts "chore: hello world").2).data.length > 8 ∧
      (formatTypedMessage "chore: hello world" 8).data.getLast? ≠ some '…' := by
  refine ⟨by decide, by decide, by decide, by decide⟩

/-- C9 (amended): the formatted message never exceeds `maxLength`; for
a parsed line whose subject makes `prefix ++ subject` longer than
`maxLength`, the result ends with an ellipsis when at least two
characters remain after the prefix (`prefix.length + 2 ≤ maxLength`),
and otherwise — including when the prefix is equal to or one below
`maxLength`, not only when it exceeds it — the trimmed prefix is
hard-truncated to `maxLength` with no ellipsis appended. -/
theorem formatTypedMessage_truncation_spec (raw : String) (maxLength : Nat) :
    (formatTypedMessage raw maxLength).data.length ≤ maxLength ∧
    ((messageParts raw).1.data.length + (messageParts raw).2.data.length > maxLength →
      (messageParts raw).2.data.length ≠ 0 →
      ((messageParts raw).1.data.length + 2 ≤ maxLength →
        (formatTypedMessage raw maxLength).data.getLast? = some '…') ∧
      (maxLength ≤ (messageParts raw).1.data.length + 1 →
        formatTypedMessage raw maxLength =
          String.mk ((jsTrimEndL (messageParts raw).1.data).take maxLength))) := by
  unfold formatTypedMessage
  by_cases hs : (messageParts raw).2.data.length = 0
  · rw [if_pos hs]
    exact ⟨by simp, fun _ hne => absurd hs hne⟩
  · rw [if_neg hs]
    have hdata : ((messageParts raw).1 ++ (messageParts raw).2).data.length =
        (messageParts raw).1.data.length + (messageParts raw).2.data.length := by
      rw [String.data_append, List.length_append]
    by_cases hfull : ((messageParts raw).1 ++ (messageParts raw).2).data.length ≤ maxLength
    · rw [if_pos hfull]
      refine ⟨hfull, fun hgt _ => ?_⟩
      rw [hdata] at hfull
      omega
    · rw [if_neg hfull]
      by_cases hhard : maxLength ≤ (messageParts raw).1.data.length + 1
      · rw [if_pos hhard]
        refine ⟨?_, fun _ _ => ⟨fun hle => (by omega : False).elim, fun _ => rfl⟩⟩
        show ((jsTrimEndL (messageParts raw).1.data).take maxLength).length ≤ maxLength
        rw [List.length_take]
        omega
      · rw [if_neg hhard]
        have hmid : (jsTrimEndL ((messageParts raw).2.data.take
            (maxLength - (messageParts raw).1.data.length - 1))).length ≤
            maxLength - (messageParts raw).1.data.length - 1 := by
          calc (jsTrimEndL ((messageParts raw).2.data.take
              (maxLength - (messageParts raw).1.data.length - 1))).length ≤
              ((messageParts raw).2.data.take
                (maxLength - (messageParts raw).1.data.length - 1)).length :=
            jsTrimEndL_length _
            _ ≤ maxLength - (messageParts raw).1.data.length - 1 := by
              rw [List.length_take]; omega
        have hresdata : ((messageParts raw).1 ++ String.mk (jsTrimEndL
            ((messageParts raw).2.data.take
              (maxLength - (messageParts raw).1.data.length - 1))) ++ "…").data =
            (messageParts raw).1.data ++ (jsTrimEndL ((messageParts raw).2.data.take
              (maxLength - (messageParts raw).1.data.length - 1))) ++ ['…'] := by
          rw [String.data_append, String.data_append]
        constructor
        · rw [hresdata]
          simp only [List.length_append, List.length_cons, List.length_nil]
          omega
        · intro _ _
          refine ⟨fun _ => ?_, fun hle => absurd hle hhard⟩
          rw [hresdata]
          exact List.getLast?_concat _

/-- C9 (witness): the ellipsis branch of the amended law at a concrete
input: `"feat: " ++ long subject` at `maxLength = 20` is over-long with
room after the prefix, so the result ends with an ellipsis. -/
theorem formatTypedMessage_truncation_spec_witness :
    (formatTypedMessage "feat: introduce the new configuration loader" 20).data.length ≤ 20 ∧
      (formatTypedMessage "feat: introduce the new configuration loader" 20).data.getLast? =
        some '…' :=
  ⟨(formatTypedMessage_truncation_spec "feat: introduce the new configuration loader" 20).1,
    ((formatTypedMessage_truncation_spec "feat: introduce the new configuration loader" 20).2
      (by decide) (by decide)).1 (by decide)⟩


/-! ## Git model, push validator and the commit orchestrator

`runAutoCommit` in `core/run` (current revision, with token usage and
warning aggregation) drives git through subprocesses.  The model makes
the repository state explicit: `changedFiles` is what
`listChangedFiles` reports, `initialStagedDirty` whether
`git diff --cached` is non-empty at entry, and `effectivePaths` the
paths whose staging actually produces a staged diff (staging a no-op
path leaves `hasStagedChanges` false).  Every state-changing git call
is appended to a log so that theorems can speak about which
subprocesses ran.  Config loading (`loadConfig`) is a collaborator: the
orchestrator receives the resolved `AutoCommitConfig`, whose
normalization guarantees `mode ∈ {single, per-file}` and a valid push
provider. -/

inductive GitOp where
  | stage (p : String)
  | commitOp (msg : String)
  | getRemoteUrl (remote : String)
  | pushCmd (remote branch : String)
deriving DecidableEq, Repr

structure GitModel where
  changedFiles : List ChangedFile
  initialStagedDirty : Bool
  effectivePaths : List String
  branch : String := "main"
  remoteUrl : String := ""
deriving DecidableEq, Repr

structure RunState where
  stagedNew : List String := []
  dirty : Bool := false
  log : List GitOp := []
  commitCount : Nat := 0
deriving DecidableEq, Repr

/-- `git diff --cached --quiet` exits non-zero iff something is staged:
the pre-existing staged content, or any staged path that actually had a
diff. -/
def hasStagedChanges (git : GitModel) (st : RunState) : Bool :=
  st.dirty || st.stagedNew.any (fun p => git.effectivePaths.contains p)

/-- `git add -A -- path`. -/
def stagePath (st : RunState) (p : String) : RunState :=
  { st with stagedNew := st.stagedNew ++ [p], log := st.log ++ [.stage p] }

/-- `git commit -m msg` followed by `git rev-parse HEAD`: returns the
new hash and clears the staging area. -/
def commit (st : RunState) (msg : String) : String × RunState :=
  ("h" ++ toString (st.commitCount + 1),
    ⟨[], false, st.log ++ [GitOp.commitOp msg], st.commitCount + 1⟩)

/-- `getStagedSummary` runs `git diff --cached` subprocesses; the texts
only feed the unmodelled request prompt, so the model just records the
path scope. -/
def getStagedSummary (git : GitModel) (onlyPath : Option String) : CommitSummary :=
  ⟨onlyPath.getD (String.intercalate " " git.effectivePaths), "", ""⟩

structure CommitRecord where
  hash : String
  message : String
  files : List String
deriving DecidableEq, Repr

structure RunResult where
  skipped : Bool
  reason : Option String := none
  committed : List CommitRecord
  pushed : Bool
  tokenUsage : Option TokenUsage := none
  aiWarning : Option String := none
deriving DecidableEq, Repr

/-- `commit` section of the configuration (`fallbackPfx` embeds the
field the source spells as a fallback prefix). -/
structure CommitConfig where
  mode : String
  fallbackPfx : String
  maxMessageLength : Nat
deriving DecidableEq, Repr

structure PushConfig where
  enabled : Bool := false
  provider : String := "github"
  remote : String := "origin"
  branch : String := ""
deriving DecidableEq, Repr

/-- Filter patterns (the source names the fields include/exclude). -/
structure FiltersConfig where
  inc : List String := []
  exc : List String := []
deriving DecidableEq, Repr

structure AutoCommitConfig where
  enabled : Bool
  worktree : String := "."
  commit : CommitConfig
  ai : AIConfig
  push : PushConfig
  filters : FiltersConfig
deriving DecidableEq, Repr

def filterFiles (files : List ChangedFile) (inc exc : List String) : List ChangedFile :=
  files.filter (fun file => shouldIncludePath file.path inc exc)

def boundaryOk (prev : Option Char) : Bool :=
  match prev with
  | none => true
  | some c => !('a' ≤ c ∧ c ≤ 'z')

def afterOk : List Char → Bool
  | [] => true
  | c :: _ => !('a' ≤ c ∧ c ≤ 'z')

/-- `test` of `/(^|[^a-z])(w1|w2|...)([^a-z]|$)/` over an already
lowercased value: some position carries one of the words with no
lowercase letter on either side. -/
def hasWordTokenAux (words : List String) : Option Char → List Char → Bool
  | prev, s =>
    if boundaryOk prev &&
        words.any (fun w => w.data.isPrefixOf s && afterOk (s.drop w.data.length)) then
      true
    else
      match s with
      | [] => false
      | c :: rest => hasWordTokenAux words (some c) rest

def hasWordToken (words : List String) (value : List Char) : Bool :=
  hasWordTokenAux words none value

/-- `value.match(/(w1|w2|...)/)`: the leftmost match, words tried in
order at each position. -/
def firstMatchWord (words : List String) : List Char → Option String
  | [] => none
  | c :: rest =>
    match words.find? (fun w => w.data.isPrefixOf (c :: rest)) with
    | some w => some w
    | none => firstMatchWord words rest

/-- `normalizeFallbackType` from `core/run` (current revision): bucket
the configured fallback prefix into a conventional type by keyword
search. -/
def normalizeFallbackType (pfx : String) : String :=
  if hasWordToken ["feat", "feature"] (lowerStr pfx).data then "feat"
  else if hasWordToken ["fix", "bugfix", "hotfix"] (lowerStr pfx).data then "fix"
  else if hasWordToken ["refactor", "chore", "docs", "style", "test", "perf", "build",
      "ci", "revert"] (lowerStr pfx).data then
    (firstMatchWord ["refactor", "chore", "docs", "style", "test", "perf", "build",
      "ci", "revert"] (lowerStr pfx).data).getD "chore"
  else "chore"

def fallbackSingleMessage (pfx : String) (count : Nat) : String :=
  normalizeFallbackType pfx ++ ": update " ++ toString count ++ " " ++
    (if count = 1 then "file" else "files")

/-- `path.basename` for the repo-relative, separator-normalized paths
the pipeline feeds it. -/
def basename (p : String) : String := String.mk (afterLastSlash p.data)

def fallbackPerFileMessage (pfx : String) (file : ChangedFile) : String :=
  if (if file.indexStatus ≠ ' ' then file.indexStatus else file.worktreeStatus) = 'A' then
    normalizeFallbackType pfx ++ ": add " ++ basename file.path
  else if (if file.indexStatus ≠ ' ' then file.indexStatus else file.worktreeStatus) = 'D' then
    normalizeFallbackType pfx ++ ": remove " ++ basename file.path
  else if (if file.indexStatus ≠ ' ' then file.indexStatus else file.worktreeStatus) = 'R' then
    normalizeFallbackType pfx ++ ": rename " ++ basename file.path
  else normalizeFallbackType pfx ++ ": update " ++ basename file.path

def addUsage (total : TokenUsage) (usage : Option TokenUsage) : TokenUsage :=
  match usage with
  | none => total
  | some u => ⟨total.promptTokens + u.promptTokens,
      total.completionTokens + u.completionTokens, total.totalTokens + u.totalTokens⟩

/-- `if (result.warning && !firstWarning) firstWarning = result.warning`. -/
def keepFirstWarning (current w : Option String) : Option String :=
  match w with
  | some str => if str ≠ "" ∧ current = none then some str else current
  | none => current

structure BuiltMessage where
  message : String
  usage : Option TokenUsage := none
  warning : Option String := none
deriving DecidableEq, Repr

/-- `buildMessage` from `core/run`: ask the engine against the staged
summary; use its message when present, else the fallback (or the
generic truncated fallback when even the fallback is over-long). -/
def buildMessage (pfx : String) (maxLength : Nat) (ai : AIConfig) (env : List (String × String))
    (git : GitModel) (stagedPath : Option String) (fallback : String)
    (pair : FetchOutcome × FetchOutcome) : BuiltMessage :=
  match (generateCommitMessage ai env (getStagedSummary git stagedPath) maxLength
      pair.1 pair.2).1 with
  | ⟨some m, u, _⟩ => ⟨m, u, none⟩
  | ⟨none, u, w⟩ =>
    ⟨if fallback.data.length ≤ maxLength then fallback
      else normalizeFallbackType pfx ++ ": update changes", u, w⟩

/-- JS `String.prototype.includes`. -/
def containsSub (needle hay : List Char) : Bool :=
  hay.tails.any (fun t => needle.isPrefixOf t)

/-- `validateProvider` from `core/git`. -/
def validateProvider (provider remoteUrl : String) : Option String :=
  if provider = "github" ∧ containsSub "github".data (lowerStr remoteUrl).data = false then
    some ("Remote URL does not look like GitHub: " ++ remoteUrl)
  else if provider = "gitlab" ∧ containsSub "gitlab".data (lowerStr remoteUrl).data = false then
    some ("Remote URL does not look like GitLab: " ++ remoteUrl)
  else none

/-- `push` from `core/git`: resolve the remote URL, validate it against
the declared provider, and only then run the push subprocess; a
validation failure is thrown before any push. -/
def push (git : GitModel) (remote branch provider : String) :
    Except String Unit × List GitOp :=
  match validateProvider provider git.remoteUrl with
  | some e => (.error e, [.getRemoteUrl remote])
  | none => (.ok (), [.getRemoteUrl remote, .pushCmd remote branch])

/-- The per-file loop of `runAutoCommit`: stage one path; if nothing
got staged, skip it silently; else build the message (consuming one
oracle entry), commit, record, and continue — an AI failure becomes a
warning, never an abort of the loop. -/
def perFileLoop (cfg : AutoCommitConfig) (git : GitModel) (env : List (String × String)) :
    List ChangedFile → RunState → List (FetchOutcome × FetchOutcome) → TokenUsage →
      Option String → RunState × List CommitRecord × TokenUsage × Option String
  | [], st, _, u, w => (st, [], u, w)
  | f :: rest, st, oracle, u, w =>
    if hasStagedChanges git (stagePath st f.path) = false then
      perFileLoop cfg git env rest (stagePath st f.path) oracle u w
    else
      match buildMessage cfg.commit.fallbackPfx cfg.commit.maxMessageLength cfg.ai env git
          (some f.path) (fallbackPerFileMessage cfg.commit.fallbackPfx f)
          (oracle.headD (.abort, .abort)) with
      | bm =>
        match commit (stagePath st f.path) bm.message with
        | (hash, st2) =>
          match perFileLoop cfg git env rest st2 oracle.tail (addUsage u bm.usage)
              (keepFirstWarning w bm.warning) with
          | (stF, recs, uF, wF) => (stF, ⟨hash, bm.message, [f.path]⟩ :: recs, uF, wF)

/-- The tail of `runAutoCommit`: the optional push (only when at least
one commit happened and push is enabled; an empty configured branch
falls back to the current branch), and the assembly of the final
`RunResult` (token usage only when any tokens accrued). -/
def finishRun (cfg : AutoCommitConfig) (git : GitModel) (st : RunState)
    (commits : List CommitRecord) (usage : TokenUsage) (warning : Option String) :
    Except String RunResult × List GitOp :=
  if commits.length > 0 ∧ cfg.push.enabled = true then
    match push git cfg.push.remote
        (if cfg.push.branch ≠ "" then cfg.push.branch else git.branch) cfg.push.provider with
    | (.error e, plog) => (.error e, st.log ++ plog)
    | (.ok _, plog) =>
      (.ok ⟨false, none, commits, true,
        (if usage.totalTokens > 0 then some usage else none), warning⟩, st.log ++ plog)
  else
    (.ok ⟨false, none, commits, false,
      (if usage.totalTokens > 0 then some usage else none), warning⟩, st.log)

/-- `runAutoCommit` from `core/run` (current revision): skip when
disabled or when nothing survives the filter; single mode stages all
filtered paths and makes one commit; per-file mode demands a clean
staging area up front and commits file by file. -/
def runAutoCommit (cfg : AutoCommitConfig) (git : GitModel) (env : List (String × String))
    (oracle : List (FetchOutcome × FetchOutcome)) : Except String RunResult × List GitOp :=
  if cfg.enabled = false then
    (.ok ⟨true, some "disabled", [], false, none, none⟩, [])
  else if (uniqueSorted (filterFiles git.changedFiles cfg.filters.inc cfg.filters.exc)).length
      = 0 then
    (.ok ⟨true, some "no changes", [], false, none, none⟩, [])
  else if cfg.commit.mode = "single" then
    match (uniqueSorted (filterFiles git.changedFiles cfg.filters.inc
        cfg.filters.exc)).foldl (fun st f => stagePath st f.path) ⟨[], git.initialStagedDirty, [], 0⟩ with
    | st1 =>
      if hasStagedChanges git st1 = false then
        (.ok ⟨true, some "no staged changes", [], false, none, none⟩, st1.log)
      else
        match buildMessage cfg.commit.fallbackPfx cfg.commit.maxMessageLength cfg.ai env git
            none (fallbackSingleMessage cfg.commit.fallbackPfx
              (uniqueSorted (filterFiles git.changedFiles cfg.filters.inc
                cfg.filters.exc)).length)
            (oracle.headD (.abort, .abort)) with
        | bm =>
          match commit st1 bm.message with
          | (hash, st2) =>
            finishRun cfg git st2
              [⟨hash, bm.message,
                (uniqueSorted (filterFiles git.changedFiles cfg.filters.inc
                  cfg.filters.exc)).map ChangedFile.path⟩]
              (addUsage ⟨0, 0, 0⟩ bm.usage) (keepFirstWarning none bm.warning)
  else if hasStagedChanges git ⟨[], git.initialStagedDirty, [], 0⟩ = true then
    (.error "per-file mode requires a clean staging area before auto-commit", [])
  else
    match perFileLoop cfg git env
        (uniqueSorted (filterFiles git.changedFiles cfg.filters.inc cfg.filters.exc))
        ⟨[], false, [], 0⟩ oracle ⟨0, 0, 0⟩ none with
    | (st, commits, usage, warning) => finishRun cfg git st commits usage warning


/-! ## Claims about the orchestrator and the push validator -/

/-- Per-file configuration with AI enabled against a single
openai-completions provider. -/
def cfgPerFile : AutoCommitConfig :=
  ⟨true, ".", ⟨"per-file", "chore(auto)", 72⟩,
    ⟨true, 15000, "openai/gpt-4.1-mini", "openai",
      [("openai", ⟨"openai-completions", "https://api.openai.com/v1", some "k", none⟩)]⟩,
    ⟨false, "github", "origin", ""⟩, ⟨[], []⟩⟩

/-- Two modified files, both with real diffs, on a clean staging area. -/
def gitTwoFiles : GitModel :=
  ⟨[⟨"a.txt", none, 'M', ' '⟩, ⟨"b.txt", none, 'M', ' '⟩], false, ["a.txt", "b.txt"],
    "main", ""⟩

/-- C3: in per-file mode a dirty staging area at entry makes the run
fail with the precondition error before any git mutation: the log is
empty, so no filtered file was staged and no commit was created. -/
theorem perFile_dirty_precondition (cfg : AutoCommitConfig) (git : GitModel)
    (env : List (String × String)) (oracle : List (FetchOutcome × FetchOutcome))
    (hen : cfg.enabled = true) (hmode : cfg.commit.mode = "per-file")
    (hdirty : git.initialStagedDirty = true)
    (hne : (uniqueSorted (filterFiles git.changedFiles cfg.filters.inc
      cfg.filters.exc)).length ≠ 0) :
    runAutoCommit cfg git env oracle =
      (.error "per-file mode requires a clean staging area before auto-commit", []) ∧
    (∀ p, GitOp.stage p ∉ (runAutoCommit cfg git env oracle).2) ∧
    (∀ m, GitOp.commitOp m ∉ (runAutoCommit cfg git env oracle).2) := by
  have h1 : runAutoCommit cfg git env oracle =
      (.error "per-file mode requires a clean staging area before auto-commit", []) := by
    unfold runAutoCommit
    rw [if_neg (by rw [hen]; simp)]
    rw [if_neg hne]
    rw [if_neg (by rw [hmode]; decide)]
    rw [if_pos (by unfold hasStagedChanges; rw [hdirty]; simp)]
  exact ⟨h1, by rw [h1]; simp, by rw [h1]; simp⟩

/-- C3 (witness): the precondition law at the concrete per-file
configuration with a dirty staging area. -/
theorem perFile_dirty_precondition_witness :
    runAutoCommit cfgPerFile
      ⟨[⟨"a.txt", none, 'M', ' '⟩], true, ["a.txt"], "main", ""⟩ [] [] =
      (.error "per-file mode requires a clean staging area before auto-commit", []) ∧
    (∀ p, GitOp.stage p ∉ (runAutoCommit cfgPerFile
      ⟨[⟨"a.txt", none, 'M', ' '⟩], true, ["a.txt"], "main", ""⟩ [] []).2) ∧
    (∀ m, GitOp.commitOp m ∉ (runAutoCommit cfgPerFile
      ⟨[⟨"a.txt", none, 'M', ' '⟩], true, ["a.txt"], "main", ""⟩ [] []).2) :=
  perFile_dirty_precondition cfgPerFile
    ⟨[⟨"a.txt", none, 'M', ' '⟩], true, ["a.txt"], "main", ""⟩ [] []
    (by decide) (by decide) (by decide) (by decide)

/-- C4: in per-file mode, when the AI call for the first file fails
with a non-2xx and the second succeeds, both files still produce
CommitRecords (the first falls back to the deterministic subject) and
the final warning equals the first failure message; and when both calls
fail, the second warning does not overwrite the first. -/
theorem perFile_warning_first_kept :
    (runAutoCommit cfgPerFile gitTwoFiles []
      [(.httpError 500 "boom", .abort),
        (.ok ⟨some "fix: improve retry handling", none, none, none⟩, .abort)]).1 =
      .ok ⟨false, none,
        [⟨"h1", "chore: update a.txt", ["a.txt"]⟩,
          ⟨"h2", "fix: improve retry handling", ["b.txt"]⟩],
        false, none, some "HTTP 500: boom"⟩ ∧
    (runAutoCommit cfgPerFile gitTwoFiles []
      [(.httpError 500 "first failure", .abort), (.httpError 502 "second failure", .abort)]).1 =
      .ok ⟨false, none,
        [⟨"h1", "chore: update a.txt", ["a.txt"]⟩, ⟨"h2", "chore: update b.txt", ["b.txt"]⟩],
        false, none, some "HTTP 500: first failure"⟩ := by
  constructor
  · rfl
  · rfl

/-- Single-commit configuration with AI disabled and the default
exclude filters. -/
def cfgSingleNoAI : AutoCommitConfig :=
  ⟨true, ".", ⟨"single", "chore(auto)", 72⟩,
    ⟨false, 15000, "openai/gpt-4.1-mini", "openai",
      [("openai", ⟨"openai-completions", "https://api.openai.com/v1", none,
        some "OPENAI_API_KEY"⟩)]⟩,
    ⟨false, "github", "origin", ""⟩,
    ⟨[], [".env", ".env.*", "*.pem", "*.key", "*.p12"]⟩⟩

/-- Working-tree modifications to `a.txt` and `b.txt`. -/
def gitTwoFilesW : GitModel :=
  ⟨[⟨"a.txt", none, ' ', 'M'⟩, ⟨"b.txt", none, ' ', 'M'⟩], false, ["a.txt", "b.txt"],
    "main", ""⟩

/-- The regular expression `/^(feat|fix|chore): update 2 files$/` as a
predicate. -/
def matchesUpdate2Regex (s : String) : Bool :=
  s = "feat: update 2 files" || s = "fix: update 2 files" || s = "chore: update 2 files"

/-- C5: single mode with AI disabled on changed files
`["a.txt", "b.txt"]` produces exactly one CommitRecord covering the
sorted filtered input, whose message matches
`/^(feat|fix|chore): update 2 files$/`. -/
theorem single_disabled_fallback :
    (runAutoCommit cfgSingleNoAI gitTwoFilesW [] []).1 =
      .ok ⟨false, none, [⟨"h1", "chore: update 2 files", ["a.txt", "b.txt"]⟩],
        false, none, none⟩ ∧
    matchesUpdate2Regex "chore: update 2 files" = true := by
  constructor
  · rfl
  · rfl

/-- C10: the push runs only when the remote URL matches the declared
provider — `github` requires the substring "github" (case-insensitive),
`gitlab` requires "gitlab", `generic` skips validation — and a mismatch
produces a descriptive error with no push subprocess in the log. -/
theorem push_provider_validation (git : GitModel) (remote branch provider : String) :
    (provider = "github" → containsSub "github".data (lowerStr git.remoteUrl).data = false →
      (push git remote branch provider).1 =
        .error ("Remote URL does not look like GitHub: " ++ git.remoteUrl) ∧
      (∀ r b2, GitOp.pushCmd r b2 ∉ (push git remote branch provider).2)) ∧
    (provider = "gitlab" → containsSub "gitlab".data (lowerStr git.remoteUrl).data = false →
      (push git remote branch provider).1 =
        .error ("Remote URL does not look like GitLab: " ++ git.remoteUrl) ∧
      (∀ r b2, GitOp.pushCmd r b2 ∉ (push git remote branch provider).2)) ∧
    (provider = "generic" →
      (push git remote branch provider).1 = .ok () ∧
      (push git remote branch provider).2 = [.getRemoteUrl remote, .pushCmd remote branch]) ∧
    (provider = "github" → containsSub "github".data (lowerStr git.remoteUrl).data = true →
      (push git remote branch provider).2 = [.getRemoteUrl remote, .pushCmd remote branch]) ∧
    (provider = "gitlab" → containsSub "gitlab".data (lowerStr git.remoteUrl).data = true →
      (push git remote branch provider).2 = [.getRemoteUrl remote, .pushCmd remote branch]) := by
  refine ⟨?_, ?_, ?_, ?_, ?_⟩
  · intro hp hc
    subst hp
    unfold push validateProvider
    rw [if_pos ⟨rfl, hc⟩]
    exact ⟨rfl, by simp⟩
  · intro hp hc
    subst hp
    unfold push validateProvider
    rw [if_neg (by rintro ⟨h, _⟩; exact absurd h (by decide))]
    rw [if_pos ⟨rfl, hc⟩]
    exact ⟨rfl, by simp⟩
  · intro hp
    subst hp
    unfold push validateProvider
    rw [if_neg (by rintro ⟨h, _⟩; exact absurd h (by decide))]
    rw [if_neg (by rintro ⟨h, _⟩; exact absurd h (by decide))]
    exact ⟨rfl, rfl⟩
  · intro hp hc
    subst hp
    unfold push validateProvider
    rw [if_neg (by rintro ⟨_, hf⟩; rw [hc] at hf; exact absurd hf (by decide))]
    rw [if_neg (by rintro ⟨h, _⟩; exact absurd h (by decide))]
  · intro hp hc
    subst hp
    unfold push validateProvider
    rw [if_neg (by rintro ⟨h, _⟩; exact absurd h (by decide))]
    rw [if_neg (by rintro ⟨_, hf⟩; rw [hc] at hf; exact absurd hf (by decide))]

/-- C10 (witness): `provider = "github"` against remote URL
`git@gitlab.com:x/y.git` is rejected before any push subprocess, and
the matching and generic cases push. -/
theorem push_provider_validation_witness :
    ((push ⟨[], false, [], "main", "git@gitlab.com:x/y.git"⟩ "origin" "main" "github").1 =
      .error ("Remote URL does not look like GitHub: " ++ "git@gitlab.com:x/y.git") ∧
      (∀ r b2, GitOp.pushCmd r b2 ∉
        (push ⟨[], false, [], "main", "git@gitlab.com:x/y.git"⟩ "origin" "main" "github").2)) ∧
    ((push ⟨[], false, [], "main", "git@gitlab.com:x/y.git"⟩ "origin" "main" "generic").1 =
      .ok () ∧
      (push ⟨[], false, [], "main", "git@gitlab.com:x/y.git"⟩ "origin" "main" "generic").2 =
        [.getRemoteUrl "origin", .pushCmd "origin" "main"]) ∧
    (push ⟨[], false, [], "main", "https://GitHub.com/x/y.git"⟩ "origin" "main" "github").2 =
      [.getRemoteUrl "origin", .pushCmd "origin" "main"] :=
  ⟨(push_provider_validation ⟨[], false, [], "main", "git@gitlab.com:x/y.git"⟩
      "origin" "main" "github").1 rfl (by decide),
    (push_provider_validation ⟨[], false, [], "main", "git@gitlab.com:x/y.git"⟩
      "origin" "main" "generic").2.2.1 rfl,
    (push_provider_validation ⟨[], false, [], "main", "https://GitHub.com/x/y.git"⟩
      "origin" "main" "github").2.2.2.1 rfl (by decide)⟩


end Cac
